import Mathlib

/-!
# Verification of the skill-execution engine

A shallow embedding of the execution engine of the `skill-agent` repository
(`app/services/executor.py`, `app/services/graph/nodes.py`,
`app/services/graph/state.py`), together with theorems settling the frozen
claims about it.

Python dictionaries are modelled as insertion-ordered association lists over
a JSON-like value type `Jv`; fallible Python code (code that may raise) is
modelled with `Except String`.
-/

set_option maxRecDepth 4000

namespace SkillAgent

/-- JSON-like values: the dynamic data passed around by the executor
(`result.data`, `merged_data`, validation-rule params). Objects are
insertion-ordered association lists, as Python dicts are. -/
inductive Jv where
  | null : Jv
  | bool (b : Bool) : Jv
  | num (n : Int) : Jv
  | str (s : String) : Jv
  | arr (xs : List Jv) : Jv
  | obj (fields : List (String × Jv)) : Jv

/-- A Python dict: an insertion-ordered association list. -/
abbrev Dict := List (String × Jv)

/-- First-match key lookup, the semantics of `d[k]` / `k in d` on a dict
modelled as an association list. -/
def lookup : Dict → String → Option Jv
  | [], _ => none
  | (k, v) :: rest, key => if k = key then some v else lookup rest key

/-- `d[k] = v` on a dict modelled as an association list: replace the value of
the first entry with key `k` in place (Python dicts keep the key position on
update), or append a new entry. -/
def setKey : Dict → String → Jv → Dict
  | [], key, v => [(key, v)]
  | (k, w) :: rest, key, v =>
    if k = key then (k, v) :: rest else (k, w) :: setKey rest key v

/-- Python truthiness of a value (`bool(v)`). -/
def truthy : Jv → Bool
  | .null => false
  | .bool b => b
  | .num n => n != 0
  | .str s => s ≠ ""
  | .arr xs => !xs.isEmpty
  | .obj fs => !fs.isEmpty

/-- Python `path.split(".")` over the character list: splitting the empty
string yields `[""]`, and each `.` starts a new (possibly empty) part. -/
def splitDotAux : List Char → List String
  | [] => [""]
  | c :: rest =>
    match splitDotAux rest with
    | [] => []
    | s :: ss => if c = '.' then "" :: s :: ss else (String.singleton c ++ s) :: ss

/-- Python `path.split(".")`. -/
def pySplitDot (path : String) : List String := splitDotAux path.toList

/-- Python `s.startswith("-")` for the one-character prefix used by the sum
check: true iff the first character is `-`. -/
def startsWithDash (s : String) : Bool :=
  match s.toList with
  | [] => false
  | c :: _ => c = '-'

/-- The descent loop of `SkillExecutor._get_nested_value`: walk a list of path
parts, descending only while the current value is a dict containing the part;
otherwise return `None`. -/
def getNestedParts : Jv → List String → Option Jv
  | cur, [] => some cur
  | .obj fs, p :: ps =>
    match lookup fs p with
    | some v => getNestedParts v ps
    | none => none
  | _, _ :: _ => none

/-- `SkillExecutor._get_nested_value(data, path)` (executor.py:530-549, also
`graph/nodes.py:454`): split the path on `.` and descend into nested dicts;
any non-dict intermediate or missing key yields `None`. -/
def getNestedValue (data : Dict) (path : String) : Option Jv :=
  getNestedParts (.obj data) (pySplitDot path)

mutual
/-- The per-key decision of `_deep_merge` (executor.py:358-362): when the
accumulator already holds `bv` at the key, the stored value is the recursive
merge if both sides are dicts, and the later value otherwise. -/
def deepMergeVal : Jv → Jv → Jv
  | .obj bo, .obj uo => .obj (deepMerge bo uo)
  | _, u => u
termination_by _ u => sizeOf u

/-- `SkillExecutor._deep_merge(base, update)` (executor.py:346-364, also
`graph/nodes.py:292`): copy `base`, then for each key of `update` in order,
merge recursively when both the accumulator and `update` hold a dict at that
key, and otherwise store `update`'s value. -/
def deepMerge : Dict → Dict → Dict
  | base, [] => base
  | base, (key, v) :: rest =>
    match lookup base key with
    | some bv => deepMerge (setKey base key (deepMergeVal bv v)) rest
    | none => deepMerge (setKey base key v) rest
termination_by _ update => sizeOf update
decreasing_by
  all_goals simp_wf
  all_goals omega
end

/-! ## Sorting of group keys (`sorted(groups.keys())`) -/

/-- Insert a number into a sorted list, keeping it sorted. -/
def insertSorted (n : Nat) : List Nat → List Nat
  | [] => [n]
  | m :: rest => if n ≤ m then n :: m :: rest else m :: insertSorted n rest

/-- Insertion sort on naturals, modelling Python's `sorted`. -/
def sortNat (l : List Nat) : List Nat := l.foldr insertSorted []

/-! ## Skills and task results (`app/models/skill.py`) -/

/-- `SkillStatus` (skill.py:10-15). -/
inductive SkillStatus where
  | active
  | disabled
  | draft
  deriving DecidableEq

/-- `SkillConfig` (skill.py:18-33), restricted to the fields the execution
engine reads. `prompt_file`, `name`, `output_fields` and `temperature` are
only passed through to the (abstracted) LLM call and are not modelled. -/
structure SkillConfig where
  parallel_group : Nat := 1
  timeout_seconds : Nat := 45
  retry_count : Nat := 2
  vendor : Option String := none
  model : Option String := none
  status : SkillStatus := .active

/-- `Skill` (skill.py:36-54), restricted to the fields the engine reads. -/
structure Skill where
  id : String
  config : SkillConfig

/-- `Skill.get_effective_vendor` (skill.py:48-50): `self.config.vendor or
default` — a `None` or empty-string vendor falls back to the default. -/
def Skill.getEffectiveVendor (s : Skill) (default : String) : String :=
  match s.config.vendor with
  | some v => if v = "" then default else v
  | none => default

/-- `Skill.get_effective_model` (skill.py:52-54): `self.config.model or
default`. -/
def Skill.getEffectiveModel (s : Skill) (default : Option String) : Option String :=
  match s.config.model with
  | some m => if m = "" then default else some m
  | none => default

/-- `SkillExecutionResult` (skill.py:57-68). Token usage and wall-clock
timing do not affect any control flow and are not modelled;
`execution_time_ms` is kept because the scheduler writes a literal `0` into
it for exception-converted results. -/
structure SkillExecutionResult where
  skill_id : String
  success : Bool
  data : Option Dict := none
  error : Option String := none
  execution_time_ms : Nat := 0
  model_used : String
  vendor_used : String
  retries : Nat := 0

/-! ## TaskRunner: the retry loop (`SkillExecutor._execute_single_skill`,
executor.py:215-307; the same loop is duplicated at graph/nodes.py:146-230) -/

/-- Outcome of one attempt of the LLM call under `asyncio.wait_for`:
a parsed result, a timeout, an `LLMClientError`, or any other exception. -/
inductive AttemptOutcome where
  | success (data : Dict)
  | timeout
  | clientError (msg : String)
  | unexpected (msg : String)

/-- The error string recorded for a failed attempt (executor.py:278-291). -/
def failureMsg (timeoutSeconds : Nat) : AttemptOutcome → String
  | .timeout => s!"Timeout after {timeoutSeconds}s"
  | .clientError m => m
  | .unexpected m => m
  | .success _ => ""

/-- Observable output of the attempt loop: the returned result, the number
of attempts actually made, and the sequence of back-off sleeps (in seconds)
performed between attempts (`await asyncio.sleep(1 * (attempt + 1))`,
executor.py:294-295). -/
structure RunOutput where
  result : SkillExecutionResult
  attemptsMade : Nat
  sleeps : List Nat

/-- The attempt loop `for attempt in range(skill.config.retry_count + 1)`
(executor.py:246-307). `remaining` counts loop iterations left; `attempt` is
the current 0-based attempt index; `lastError` and `retries` carry the
`last_error` and `retries` locals. The per-attempt behavior of the LLM
client is the oracle `beh`. -/
def runAttempts (skillId : String) (timeoutSeconds retryCount : Nat)
    (modelUsed vendorUsed : String) (beh : Nat → AttemptOutcome) :
    Nat → Nat → Option String → Nat → RunOutput
  | 0, attempt, lastError, retries =>
    { result := { skill_id := skillId, success := false, data := none,
                  error := lastError, execution_time_ms := 0,
                  model_used := modelUsed, vendor_used := vendorUsed,
                  retries := retries },
      attemptsMade := attempt, sleeps := [] }
  | remaining + 1, attempt, _lastError, retries =>
    match beh attempt with
    | .success data =>
      { result := { skill_id := skillId, success := true, data := some data,
                    error := none, execution_time_ms := 0,
                    model_used := modelUsed, vendor_used := vendorUsed,
                    retries := retries },
        attemptsMade := attempt + 1, sleeps := [] }
    | o =>
      let err := failureMsg timeoutSeconds o
      if attempt < retryCount then
        let rest := runAttempts skillId timeoutSeconds retryCount modelUsed
          vendorUsed beh remaining (attempt + 1) (some err) (attempt + 1)
        { rest with sleeps := 1 * (attempt + 1) :: rest.sleeps }
      else
        runAttempts skillId timeoutSeconds retryCount modelUsed vendorUsed
          beh remaining (attempt + 1) (some err) (attempt + 1)

/-- `SkillExecutor._execute_single_skill` (executor.py:215-307): resolve the
effective vendor and model (falling back to the per-vendor default looked up
by `vendorDefaultModel`, executor.py:233-240), then run the attempt loop. -/
def executeSingleSkill (skill : Skill) (defaultVendor : String)
    (defaultModel : Option String) (vendorDefaultModel : String → String)
    (beh : Nat → AttemptOutcome) : RunOutput :=
  let vendor := skill.getEffectiveVendor defaultVendor
  let model0 := skill.getEffectiveModel defaultModel
  let model : String :=
    match model0 with
    | none => vendorDefaultModel vendor
    | some m => if m = "" then vendorDefaultModel vendor else m
  let modelUsed := if model = "" then "default" else model
  runAttempts skill.id skill.config.timeout_seconds skill.config.retry_count
    modelUsed vendor beh (skill.config.retry_count + 1) 0 none 0

/-! ## GroupScheduler (`SkillExecutor._execute_skills`, executor.py:157-213) -/

/-- What `asyncio.gather(..., return_exceptions=True)` yields for one task:
either the task's `SkillExecutionResult`, or an exception object that
escaped the runner. -/
inductive TaskOutcome where
  | ok (r : SkillExecutionResult)
  | exn (msg : String)

/-- executor.py:198-211: an exception coming back from `gather` is converted
into a failed `SkillExecutionResult` for the corresponding skill. -/
def convertOutcome (skill : Skill) : TaskOutcome → SkillExecutionResult
  | .ok r => r
  | .exn msg =>
    { skill_id := skill.id, success := false, data := none, error := some msg,
      execution_time_ms := 0, model_used := "unknown",
      vendor_used := "unknown", retries := 0 }

/-- The sorted distinct group numbers of a skill list
(`sorted(groups.keys())`, executor.py:186). -/
def sortedGroupKeys (skills : List Skill) : List Nat :=
  sortNat (skills.map (fun s => s.config.parallel_group)).dedup

/-- The grouping built at executor.py:176-181 paired with the iteration
order of executor.py:186: for each group number in ascending order, the
skills of that group in input order (dict insertion appends, so each
group's list preserves the input order). -/
def groupSkills (skills : List Skill) : List (Nat × List Skill) :=
  (sortedGroupKeys skills).map
    (fun g => (g, skills.filter (fun s => s.config.parallel_group = g)))

/-- The order in which tasks are handed to the runner: groups in ascending
order, input order within each group. -/
def scheduleList (skills : List Skill) : List Skill :=
  (groupSkills skills).flatMap Prod.snd

/-- `SkillExecutor._execute_skills` (executor.py:157-213): run each group and
append its results (input order within the group, via `zip(group_skills,
results)`). The per-skill behavior, including exceptions escaping into
`gather`, is the oracle `run`. -/
def executeSkills (skills : List Skill) (run : Skill → TaskOutcome) :
    List SkillExecutionResult :=
  (groupSkills skills).flatMap
    (fun p => p.2.map (fun s => convertOutcome s (run s)))

/-- Scheduling events: a task's LLM call being launched, and its
`SkillExecutionResult` being produced. -/
inductive SchedEvent where
  | launch (skillId : String) (group : Nat)
  | finish (skillId : String) (group : Nat)
  deriving DecidableEq

/-- The group of a scheduling event. -/
def SchedEvent.group : SchedEvent → Nat
  | .launch _ g => g
  | .finish _ g => g

/-- The temporal structure guaranteed by executor.py:186-195: for each group
in ascending order, all of its tasks are launched, and `await
asyncio.gather` returns all of their results before the loop advances to the
next group. Within a group the launches and finishes may interleave
arbitrarily; the trace keeps them inside the group's segment, which is all
the cross-group claims need. -/
def executionTrace (skills : List Skill) : List SchedEvent :=
  (groupSkills skills).flatMap
    (fun p => p.2.map (fun s => SchedEvent.launch s.id p.1) ++
      p.2.map (fun s => SchedEvent.finish s.id p.1))

/-! ## Merging (`SkillExecutor._merge_results`, executor.py:309-364) -/

/-- `MergeStrategy` (schema.py:10-15). -/
inductive MergeStrategy where
  | first_wins
  | last_wins
  | merge_deep
  deriving DecidableEq

/-- executor.py:326-327: a result participates in the merge only if it
succeeded and its `data` is truthy (not `None` and not an empty dict). -/
def participates (r : SkillExecutionResult) : Bool :=
  r.success && (match r.data with
    | some d => !d.isEmpty
    | none => false)

/-- One iteration of the result loop of `_merge_results`
(executor.py:326-342). -/
def mergeStep (strategy : MergeStrategy) (merged : Dict)
    (r : SkillExecutionResult) : Dict :=
  if !participates r then merged
  else
    match r.data with
    | none => merged
    | some d =>
      match strategy with
      | .first_wins =>
        d.foldl (fun acc kv =>
          if (lookup acc kv.1).isSome then acc else setKey acc kv.1 kv.2) merged
      | .last_wins => d.foldl (fun acc kv => setKey acc kv.1 kv.2) merged
      | .merge_deep => deepMerge merged d

/-- `SkillExecutor._merge_results` (executor.py:309-344): fold the results in
list order into an initially empty dict. -/
def mergeResults (strategy : MergeStrategy)
    (results : List SkillExecutionResult) : Dict :=
  results.foldl (mergeStep strategy) []

/-! ## Engine-level status (`SkillExecutor.execute`, executor.py:65-155) -/

/-- `ExecutionStatus` (execution.py:11-18). The Lean name `partialStatus`
stands for the source's `PARTIAL`. -/
inductive ExecutionStatus where
  | pending
  | running
  | completed
  | failed
  | partialStatus
  deriving DecidableEq

/-- executor.py:116-122: all results failed → `FAILED`; some failed →
`PARTIAL`; none failed → `COMPLETED`. -/
def computeStatus (results : List SkillExecutionResult) : ExecutionStatus :=
  let failed := results.filter (fun r => !r.success)
  if failed.length = results.length then .failed
  else if !failed.isEmpty then .partialStatus
  else .completed

/-- `LoadedSchema.get_active_skills` (schema.py:89-93). -/
def getActiveSkills (skills : List Skill) : List Skill :=
  skills.filter (fun s => s.config.status = SkillStatus.active)

/-- The parts of `ExecutionResponse` (execution.py:68-79) the claims are
about. -/
structure EngineResponse where
  status : ExecutionStatus
  error : Option String := none
  skill_results : List SkillExecutionResult := []
  data : Dict := []

/-- The happy path of `SkillExecutor.execute` (executor.py:65-143): filter to
active skills, fail immediately with "No active skills to execute" when none
remain (executor.py:86-92), otherwise run the groups, merge, and derive the
final status (executor.py:115-143). Validation is orthogonal to the status
computation and is modelled separately. -/
def executeEngine (skills : List Skill) (strategy : MergeStrategy)
    (run : Skill → TaskOutcome) : EngineResponse :=
  let active := getActiveSkills skills
  if active.isEmpty then
    { status := .failed, error := some "No active skills to execute" }
  else
    let results := executeSkills active run
    let merged := mergeResults strategy results
    let failed := results.filter (fun r => !r.success)
    { status := computeStatus results,
      error :=
        if failed.isEmpty then none
        else some (String.intercalate "; " (failed.map (fun r => r.error.getD ""))),
      skill_results := results,
      data := merged }

/-! ## Validation engine (`SkillExecutor._validate_output` /
`_run_validation_rule`, executor.py:378-528; duplicated at
graph/nodes.py:310-451). Rule evaluation runs under a `try/except`, so the
evaluators return `Except String CheckResult`, the error carrying the
Python exception message. -/

/-- `ValidationRule` (schema.py:18-25). -/
structure ValidationRule where
  id : String
  name : String
  type : String
  params : Dict := []
  severity : String := "error"

/-- The per-rule check dictionary built by `_run_validation_rule`. -/
structure CheckResult where
  name : String
  status : String
  error : Option String := none
  reason : Option String := none

/-- The single-quote character, used by Python `repr` of strings. -/
def sq : String := String.singleton (Char.ofNat 39)

/-- Python `repr` of a list of strings, as produced by the f-string
`f"Missing fields: {missing}"` (executor.py:495). -/
def pyReprStrList (xs : List String) : String :=
  "[" ++ String.intercalate ", " (xs.map (fun s => sq ++ s ++ sq)) ++ "]"

/-- Python `repr(v)` for an embedded value: containers render their
elements recursively via `repr`; string `repr` is modelled with plain
single quotes. -/
def pyRepr : Jv → String
  | .null => "None"
  | .bool true => "True"
  | .bool false => "False"
  | .num n => toString n
  | .str s => sq ++ s ++ sq
  | .arr xs =>
    "[" ++ String.intercalate ", " (xs.attach.map (fun x => pyRepr x.1)) ++ "]"
  | .obj fs =>
    "\x7b" ++ String.intercalate ", "
      (fs.attach.map (fun kv => sq ++ kv.1.1 ++ sq ++ ": " ++ pyRepr kv.1.2)) ++ "\x7d"
termination_by v => sizeOf v
decreasing_by
  all_goals simp_wf
  · have := List.sizeOf_lt_of_mem x.2; omega
  · obtain ⟨⟨k, v⟩, hmem⟩ := kv
    have := List.sizeOf_lt_of_mem hmem
    simp at this ⊢
    omega

/-- Python `str(v)`, used by the f-strings in check error messages:
a string renders bare, scalars as Python prints them, and containers via
`repr`. -/
def pyStr : Jv → String
  | .null => "None"
  | .bool true => "True"
  | .bool false => "False"
  | .num n => toString n
  | .str s => s
  | .arr xs => pyRepr (.arr xs)
  | .obj fs => pyRepr (.obj fs)

/-- Python `str(x)` where `x` is an `Optional` value (`None` → `"None"`). -/
def pyStrOpt : Option Jv → String
  | none => "None"
  | some v => pyStr v

/-- Python `x is None` applied to what `_get_nested_value` returned: true
when the path was unresolvable, and also when it resolved to a stored JSON
`null`, which in Python is the very same `None`. -/
def pyIsNone : Option Jv → Bool
  | none => true
  | some .null => true
  | some _ => false

/-- The value a resolved operand or field contributes before addition:
`value or 0` — `None` and falsy values are replaced by the int `0`
(executor.py:473-475). -/
def pyOrZero : Option Jv → Jv
  | none => .num 0
  | some v => if truthy v then v else .num 0

/-- Python `acc + v` where `acc` is an `int`: ints add, `True` adds 1
(a falsy `False` never reaches here), anything else raises `TypeError`. -/
def pyAddInt (acc : Int) : Jv → Except String Int
  | .num n => .ok (acc + n)
  | .bool b => .ok (acc + if b then 1 else 0)
  | _ => .error "TypeError: unsupported operand type(s) for +"

/-- Python `acc - v` where `acc` is an `int`. -/
def pySubInt (acc : Int) : Jv → Except String Int
  | .num n => .ok (acc - n)
  | .bool b => .ok (acc - if b then 1 else 0)
  | _ => .error "TypeError: unsupported operand type(s) for -"

/-- Python `a < b` for embedded values: numbers (and bools) compare
numerically, strings lexicographically, anything else raises `TypeError`. -/
def pyLt : Jv → Jv → Except String Bool
  | .num a, .num b => .ok (decide (a < b))
  | .num a, .bool b => .ok (decide (a < if b then 1 else 0))
  | .bool a, .num b => .ok (decide ((if a then (1 : Int) else 0) < b))
  | .bool a, .bool b => .ok (decide ((if a then (1 : Int) else 0) < if b then 1 else 0))
  | .str a, .str b => .ok (decide (a < b))
  | _, _ => .error "TypeError: < not supported between instances"

/-- Using a value as a dotted path: `_get_nested_value` immediately calls
`path.split(".")`, which raises `AttributeError` unless the value is a
string (in particular when `params.get(...)` returned `None`). -/
def asPathString : Option Jv → Except String String
  | some (.str s) => .ok s
  | none => .error "AttributeError: NoneType object has no attribute split"
  | some _ => .error "AttributeError: object has no attribute split"

/-- Python iteration (`for x in v`): lists yield elements, strings yield
1-character strings, dicts yield their keys, everything else raises
`TypeError`. -/
def asIterable : Jv → Except String (List Jv)
  | .arr xs => .ok xs
  | .str s => .ok (s.toList.map (fun c => Jv.str (String.singleton c)))
  | .obj fs => .ok (fs.map (fun kv => Jv.str kv.1))
  | _ => .error "TypeError: object is not iterable"

/-- One operand of a sum check (executor.py:471-475): `op.startswith("-")`
requires a string; a leading `-` subtracts the resolved value, otherwise it
is added, with unresolvable or falsy values contributing 0. -/
def evalOperand (data : Dict) (acc : Int) (op : Jv) : Except String Int :=
  match op with
  | .str s =>
    if startsWithDash s then
      pySubInt acc (pyOrZero (getNestedValue data (s.drop 1)))
    else
      pyAddInt acc (pyOrZero (getNestedValue data s))
  | _ => .error "AttributeError: object has no attribute startswith"

/-- Python `expected_value == calculated` where `calculated` is an `int`:
`None` and non-numeric values are simply unequal, bools compare as 0/1. -/
def pyEqInt : Option Jv → Int → Bool
  | none, _ => false
  | some (.num n), c => n = c
  | some (.bool b), c => (if b then (1 : Int) else 0) = c
  | some _, _ => false

/-- The `sum_check` branch of `_run_validation_rule` (executor.py:463-484). -/
def evalSumCheck (ruleName : String) (params data : Dict) :
    Except String CheckResult := do
  let ef ← asPathString (lookup params "expected")
  let expectedValue := getNestedValue data ef
  let ops ← asIterable ((lookup params "operands").getD (.arr []))
  let calculated ← ops.foldlM (evalOperand data) 0
  if pyEqInt expectedValue calculated then
    pure { name := ruleName, status := "passed" }
  else
    let e := pyStrOpt expectedValue
    let c := toString calculated
    pure { name := ruleName, status := "failed",
           error := some s!"Expected {e}, calculated {c}" }

/-- One element of the `required` list comprehension (executor.py:489):
resolve the field as a dotted path and collect it when
`_get_nested_value(data, f) is None` — that is, when the path is
unresolvable or resolves to a stored JSON `null`. -/
def reqStep (data : Dict) (acc : List String) (f : Jv) :
    Except String (List String) := do
  let fstr ← asPathString (some f)
  if pyIsNone (getNestedValue data fstr) then pure (acc ++ [fstr])
  else pure acc

/-- The `required` branch of `_run_validation_rule` (executor.py:486-497). -/
def evalRequired (ruleName : String) (params data : Dict) :
    Except String CheckResult := do
  let fs ← asIterable ((lookup params "fields").getD (.arr []))
  let missing ← fs.foldlM (reqStep data) ([] : List String)
  if !missing.isEmpty then
    let m := pyReprStrList missing
    pure { name := ruleName, status := "failed",
           error := some s!"Missing fields: {m}" }
  else
    pure { name := ruleName, status := "passed" }

/-- The `range_check` branch of `_run_validation_rule`
(executor.py:499-518), with Python's short-circuit evaluation of
`(min_val is not None and value < min_val) or (...)`. -/
def evalRangeCheck (ruleName : String) (params data : Dict) :
    Except String CheckResult := do
  let f ← asPathString (lookup params "field")
  let minVal := lookup params "min"
  let maxVal := lookup params "max"
  match getNestedValue data f with
  | none =>
    pure { name := ruleName, status := "skipped", reason := some "Field not found" }
  | some Jv.null =>
    pure { name := ruleName, status := "skipped", reason := some "Field not found" }
  | some v =>
    let failMsg :=
      let vs := pyStr v
      let lo := pyStrOpt minVal
      let hi := pyStrOpt maxVal
      s!"Value {vs} outside range [{lo}, {hi}]"
    let lowFail ← match minVal with
      | none => pure false
      | some m => pyLt v m
    if lowFail then
      pure { name := ruleName, status := "failed", error := some failMsg }
    else
      let highFail ← match maxVal with
        | none => pure false
        | some m => pyLt m v
      if highFail then
        pure { name := ruleName, status := "failed", error := some failMsg }
      else
        pure { name := ruleName, status := "passed" }

/-- The body of the `try` in `_run_validation_rule` (executor.py:462-525):
dispatch on the rule type, unknown types are skipped. -/
def evalRule (rule : ValidationRule) (data : Dict) : Except String CheckResult :=
  if rule.type = "sum_check" then evalSumCheck rule.name rule.params data
  else if rule.type = "required" then evalRequired rule.name rule.params data
  else if rule.type = "range_check" then evalRangeCheck rule.name rule.params data
  else
    let t := rule.type
    .ok { name := rule.name, status := "skipped",
          reason := some s!"Unknown rule type: {t}" }

/-- `SkillExecutor._run_validation_rule` (executor.py:447-528): any
exception during rule evaluation is caught and recorded as a check with
status `"error"` (executor.py:527-528). -/
def runValidationRule (rule : ValidationRule) (data : Dict) : CheckResult :=
  match evalRule rule data with
  | .ok c => c
  | .error e => { name := rule.name, status := "error", error := some e }

/-- `ValidationResult` (execution.py:33-42). -/
structure ValidationResult where
  status : String
  quality_score : Int := 100
  checks : List CheckResult := []
  errors : List String := []
  warnings : List String := []

/-- One iteration of the rule loop of `_validate_output`
(executor.py:417-425): append the check, and on a `"failed"` check route its
message into `errors` or `warnings` by rule severity. -/
def valStep (data : Dict) (acc : List String × List String × List CheckResult)
    (rule : ValidationRule) : List String × List String × List CheckResult :=
  let c := runValidationRule rule data
  let checks := acc.2.2 ++ [c]
  if c.status = "failed" then
    if rule.severity = "error" then
      let n := rule.name
      let m := c.error.getD "Failed"
      (acc.1 ++ [s!"{n}: {m}"], acc.2.1, checks)
    else
      let n := rule.name
      let m := c.error.getD "Warning"
      (acc.1, acc.2.1 ++ [s!"{n}: {m}"], checks)
  else (acc.1, acc.2.1, checks)

/-- `SkillExecutor._validate_output` (executor.py:378-445). The Pydantic
shape check executes a dynamically loaded model class, which is external
code; its outcome is abstracted as `pydanticOutcome`: `none` = no output
model configured, `some none` = the model accepted the data, `some (some e)`
= it raised with message `e`. Rules are then folded in order; only checks
with status `"failed"` feed `errors` (severity `"error"`) or `warnings`
(any other severity). -/
def validateOutput (pydanticOutcome : Option (Option String))
    (rules : List ValidationRule) (data : Dict) : ValidationResult :=
  let init : List String × List String × List CheckResult :=
    match pydanticOutcome with
    | none => ([], [], [])
    | some none => ([], [], [{ name := "pydantic_validation", status := "passed" }])
    | some (some e) =>
      ([s!"Pydantic validation failed: {e}"], [],
       [{ name := "pydantic_validation", status := "failed", error := some e }])
  let final := rules.foldl (valStep data) init
  let errors := final.1
  let warnings := final.2.1
  let q : Int := 100 - errors.length * 15 - warnings.length * 5
  let quality := max 0 (min 100 q)
  let status :=
    if !errors.isEmpty then "FAIL"
    else if !warnings.isEmpty then "REVIEW"
    else "PASS"
  { status := status, quality_score := quality, checks := final.2.2,
    errors := errors, warnings := warnings }

/-! ## The router node (`route_next_action`, graph/nodes.py:489-537) and
LangGraph partial state updates (`graph/state.py`). A node returns a dict of
the fields it wants changed; every field of `SkillGraphState` involved here
(`completed_groups`, `current_group`, `validation_result`, `retry_count`,
`should_retry`, `next_action`, `status`) is a plain field with no reducer
annotation, so an absent key leaves the field untouched and a present key
replaces the value. -/

/-- The slice of `SkillGraphState` (graph/state.py:17-101) read or written
by the router. `skills` stands for the schema looked up via `schema_id`,
from which the router recomputes `get_skills_by_group()`. `completed_at`
(a wall-clock timestamp) is not modelled. -/
structure RouterState where
  skills : List Skill
  current_group : Nat := 1
  completed_groups : List Nat := []
  validation_result : Option ValidationResult := none
  retry_count : Nat := 0
  max_retries : Nat := 2
  human_review_required : Bool := false
  should_retry : Bool := false
  next_action : Option String := none
  status : String := "running"

/-- The partial-update dict returned by `route_next_action`: `none` means
the key is absent from the returned dict, so the state keeps its value. -/
structure RouterUpdate where
  next_action : Option String := none
  current_group : Option Nat := none
  should_retry : Option Bool := none
  retry_count : Option Nat := none
  status : Option String := none
  completed_groups : Option (List Nat) := none
  validation_result : Option (Option ValidationResult) := none

/-- `route_next_action` (graph/nodes.py:489-537): if any group of the schema
is not in `completed_groups`, continue with the first such group; otherwise,
on a stored `FAIL` validation with retry budget left, return only
`next_action="retry"`, `should_retry=True` and the incremented
`retry_count`; on an exhausted budget with human review required, route to
human review; in every other case complete. -/
def routeNextAction (st : RouterState) : RouterUpdate :=
  let allGroups := sortedGroupKeys st.skills
  let remaining := allGroups.filter (fun g => !st.completed_groups.contains g)
  let complete : RouterUpdate :=
    { next_action := some "complete", status := some "completed" }
  match remaining with
  | g :: _ => { next_action := some "execute_next_group", current_group := some g }
  | [] =>
    match st.validation_result with
    | some vr =>
      if vr.status = "FAIL" then
        if st.retry_count < st.max_retries then
          { next_action := some "retry", should_retry := some true,
            retry_count := some (st.retry_count + 1) }
        else if st.human_review_required then
          { next_action := some "human_review" }
        else complete
      else complete
    | none => complete

/-- Apply a router update to the state: LangGraph `LastValue` channel
semantics — present keys replace, absent keys keep the old value. -/
def applyRouterUpdate (st : RouterState) (u : RouterUpdate) : RouterState :=
  { st with
    next_action := if u.next_action.isSome then u.next_action else st.next_action,
    current_group := u.current_group.getD st.current_group,
    should_retry := u.should_retry.getD st.should_retry,
    retry_count := u.retry_count.getD st.retry_count,
    status := u.status.getD st.status,
    completed_groups := u.completed_groups.getD st.completed_groups,
    validation_result := u.validation_result.getD st.validation_result }

/-! ## Odds and ends used by the statements -/

/-- Whether a value is a dict. -/
def Jv.isObj : Jv → Bool
  | .obj _ => true
  | _ => false

/-- Whether an attempt outcome is one of the three failure modes. -/
def AttemptOutcome.isFailure : AttemptOutcome → Bool
  | .success _ => false
  | _ => true

/-- What `_deep_merge` leaves at a key, as a function of what the two sides
hold there: nothing from the update keeps the base value; when both sides
hold something, the per-key decision `deepMergeVal` applies (recursive merge
for two dicts, replacement otherwise); a key only in the update is added. -/
def deepMergeSpec : Option Jv → Option Jv → Option Jv
  | b, none => b
  | some bv, some uv => some (deepMergeVal bv uv)
  | none, some v => some v

/-- Convenience constructor for a `sum_check` rule with string operands,
as loaded from a schema's `validation_rules`. -/
def sumRule (ruleId ruleName expectedField : String) (operands : List String)
    (sev : String) : ValidationRule :=
  { id := ruleId, name := ruleName, type := "sum_check",
    params := [("expected", .str expectedField),
               ("operands", .arr (operands.map .str))],
    severity := sev }

/-- Convenience constructor for a `required` rule. -/
def requiredRule (ruleId ruleName : String) (fields : List String)
    (sev : String) : ValidationRule :=
  { id := ruleId, name := ruleName, type := "required",
    params := [("fields", .arr (fields.map .str))], severity := sev }

/-! ## Concrete fixtures used by examples, witnesses and counterexamples -/

/-- Task A of the spec's group-ordering scenario (group 1). -/
def skillA : Skill := { id := "A", config := { parallel_group := 1 } }

/-- Task B of the scenario (group 2). -/
def skillB : Skill := { id := "B", config := { parallel_group := 2 } }

/-- Task C of the scenario (group 1). -/
def skillC : Skill := { id := "C", config := { parallel_group := 1 } }

/-- Task D of the scenario (group 2). -/
def skillD : Skill := { id := "D", config := { parallel_group := 2 } }

/-- The spec's `{2,1,2,1}`-style task set: four tasks with groups 1,2,1,2
in input order. -/
def sampleSkills : List Skill := [skillA, skillB, skillC, skillD]

/-- A task with `maxRetries = 2` (the default). -/
def skillT : Skill := { id := "T", config := { retry_count := 2 } }

/-- An LLM stub that fails twice with a client error, then succeeds. -/
def behFailTwice : Nat → AttemptOutcome :=
  fun a => if a < 2 then .clientError "boom" else .success []

/-- An LLM stub that times out on every attempt. -/
def behAllTimeout : Nat → AttemptOutcome := fun _ => .timeout

/-- First result of the spec's DeepMerge example: `{nested:{a:1,b:2}}`. -/
def mergeResultA : SkillExecutionResult :=
  { skill_id := "t1", success := true,
    data := some [("nested", .obj [("a", .num 1), ("b", .num 2)])],
    model_used := "m", vendor_used := "v" }

/-- Second result of the example: `{nested:{b:3,c:4}}`. -/
def mergeResultB : SkillExecutionResult :=
  { skill_id := "t2", success := true,
    data := some [("nested", .obj [("b", .num 3), ("c", .num 4)])],
    model_used := "m", vendor_used := "v" }

/-- The spec's SumCheck data `{total:100, a:60, b:40}`. -/
def sumDataGood : Dict := [("total", .num 100), ("a", .num 60), ("b", .num 40)]

/-- The failing variant with `b` changed to 30. -/
def sumDataBad : Dict := [("total", .num 100), ("a", .num 60), ("b", .num 30)]

/-- A merged object whose operand `a` holds a string, so summing raises. -/
def sumDataTypeError : Dict :=
  [("total", .num 100), ("a", .str "oops"), ("b", .num 40)]

/-- The example `sum_check` rule over `total = a + b`. -/
def sumRuleAB : ValidationRule := sumRule "r_sum" "sum_total" "total" ["a", "b"] "error"

/-- Data with fields that are present but falsy (`a = 0`, `b.c = false`)
and with `d` absent. -/
def falsyData : Dict := [("a", .num 0), ("b", .obj [("c", .bool false)])]

/-- A failed result (no data), which must never affect merged output. -/
def failedResult : SkillExecutionResult :=
  { skill_id := "f", success := false, error := some "boom",
    model_used := "m", vendor_used := "v" }

/-- A task set whose only task is disabled, so no active task remains. -/
def disabledSkill : Skill :=
  { id := "X", config := { status := .disabled } }

/-- A `FAIL` validation result as stored in the graph state. -/
def vrFail : ValidationResult :=
  { status := "FAIL", quality_score := 85,
    checks := [{ name := "sum_total", status := "failed",
                 error := some "Expected 100, calculated 90" }],
    errors := ["sum_total: Expected 100, calculated 90"], warnings := [] }

/-- A router state in which all groups are completed, validation stored a
`FAIL`, and the engine-level retry budget is not exhausted. -/
def c1State : RouterState :=
  { skills := sampleSkills, current_group := 2, completed_groups := [1, 2],
    validation_result := some vrFail, retry_count := 0, max_retries := 2 }

/-! ## Helper lemmas on sorting and the group partition -/

theorem insertSorted_perm (n : Nat) (l : List Nat) :
    (insertSorted n l).Perm (n :: l) := by
  induction l with
  | nil => simp [insertSorted]
  | cons m rest ih =>
    by_cases h : n ≤ m
    · simp [insertSorted, h]
    · simp only [insertSorted, if_neg h]
      exact ((ih.cons m).trans (List.Perm.swap n m rest))

theorem sortNat_perm (l : List Nat) : (sortNat l).Perm l := by
  induction l with
  | nil => simp [sortNat]
  | cons a rest ih =>
    have h1 : sortNat (a :: rest) = insertSorted a (sortNat rest) := rfl
    rw [h1]
    exact (insertSorted_perm a (sortNat rest)).trans (ih.cons a)

theorem insertSorted_pairwise (n : Nat) (l : List Nat)
    (h : l.Pairwise (· ≤ ·)) : (insertSorted n l).Pairwise (· ≤ ·) := by
  induction l with
  | nil => simp [insertSorted]
  | cons m rest ih =>
    rw [List.pairwise_cons] at h
    by_cases hnm : n ≤ m
    · simp only [insertSorted, if_pos hnm]
      refine List.Pairwise.cons ?_ (List.Pairwise.cons h.1 h.2)
      intro x hx
      rcases List.mem_cons.1 hx with rfl | hx
      · exact hnm
      · exact le_trans hnm (h.1 x hx)
    · simp only [insertSorted, if_neg hnm]
      refine List.Pairwise.cons ?_ (ih h.2)
      intro x hx
      have hx' : x ∈ n :: rest := (insertSorted_perm n rest).mem_iff.1 hx
      rcases List.mem_cons.1 hx' with rfl | hx'
      · exact le_of_lt (Nat.lt_of_not_le hnm)
      · exact h.1 x hx'

theorem sortNat_pairwise (l : List Nat) : (sortNat l).Pairwise (· ≤ ·) := by
  induction l with
  | nil => exact List.Pairwise.nil
  | cons a rest ih => exact insertSorted_pairwise a (sortNat rest) ih

theorem sortedGroupKeys_nodup (skills : List Skill) :
    (sortedGroupKeys skills).Nodup :=
  ((sortNat_perm _).nodup_iff).2 (List.nodup_dedup _)

theorem sortedGroupKeys_pairwise (skills : List Skill) :
    (sortedGroupKeys skills).Pairwise (· ≤ ·) :=
  sortNat_pairwise _

theorem mem_sortedGroupKeys {skills : List Skill} {g : Nat} :
    g ∈ sortedGroupKeys skills ↔ ∃ s ∈ skills, s.config.parallel_group = g := by
  unfold sortedGroupKeys
  rw [(sortNat_perm _).mem_iff, List.mem_dedup, List.mem_map]

theorem flatMap_congr_mem {α β : Type} {l : List α} {f g : α → List β}
    (h : ∀ x ∈ l, f x = g x) : l.flatMap f = l.flatMap g := by
  induction l with
  | nil => rfl
  | cons a rest ih =>
    simp only [List.flatMap_cons]
    rw [h a (List.mem_cons_self a rest), ih (fun x hx => h x (List.mem_cons_of_mem a hx))]

theorem flatMap_filter_perm (keys : List Nat) :
    ∀ l : List Skill, keys.Nodup →
    (∀ s ∈ l, s.config.parallel_group ∈ keys) →
    (keys.flatMap
      (fun g => l.filter (fun s => s.config.parallel_group = g))).Perm l := by
  induction keys with
  | nil =>
    intro l _ hcov
    have : l = [] := by
      rw [List.eq_nil_iff_forall_not_mem]
      intro s hs
      exact absurd (hcov s hs) (List.not_mem_nil _)
    simp [this]
  | cons g rest ih =>
    intro l hnd hcov
    rw [List.nodup_cons] at hnd
    simp only [List.flatMap_cons]
    have hstep : ∀ g' ∈ rest,
        l.filter (fun s => s.config.parallel_group = g') =
        (l.filter (fun s => !(decide (s.config.parallel_group = g)))).filter
          (fun s => s.config.parallel_group = g') := by
      intro g' hg'
      rw [List.filter_filter]
      refine (List.filter_congr ?_).symm
      intro s _
      by_cases hsg : s.config.parallel_group = g'
      · have hne : s.config.parallel_group ≠ g := by
          rw [hsg]; intro hcon; exact hnd.1 (hcon ▸ hg')
        have hgg : ¬g' = g := fun hc => hne (hsg.trans hc)
        simp [hsg, hne, hgg]
      · simp [hsg]
    have hrw := flatMap_congr_mem (l := rest) hstep
    rw [hrw]
    have hcov' : ∀ s ∈ l.filter (fun s => !(decide (s.config.parallel_group = g))),
        s.config.parallel_group ∈ rest := by
      intro s hs
      rw [List.mem_filter] at hs
      have h1 := hcov s hs.1
      have h2 : s.config.parallel_group ≠ g := by
        intro hcon
        simp [hcon] at hs
      rcases List.mem_cons.1 h1 with hcon | h1
      · exact absurd hcon h2
      · exact h1
    have hperm := ih (l.filter (fun s => !(decide (s.config.parallel_group = g))))
      hnd.2 hcov'
    refine (List.Perm.append_left _ hperm).trans ?_
    exact List.filter_append_perm _ l

theorem scheduleList_eq (skills : List Skill) :
    scheduleList skills = (sortedGroupKeys skills).flatMap
      (fun g => skills.filter (fun s => s.config.parallel_group = g)) := by
  unfold scheduleList groupSkills
  rw [List.flatMap_map]

theorem scheduleList_perm (skills : List Skill) :
    (scheduleList skills).Perm skills := by
  rw [scheduleList_eq]
  refine flatMap_filter_perm _ skills (sortedGroupKeys_nodup skills) ?_
  intro s hs
  exact mem_sortedGroupKeys.2 ⟨s, hs, rfl⟩

theorem filter_flatMap_dist {α β : Type} (l : List α) (f : α → List β)
    (p : β → Bool) :
    (l.flatMap f).filter p = l.flatMap (fun x => (f x).filter p) := by
  induction l with
  | nil => rfl
  | cons a rest ih => simp only [List.flatMap_cons, List.filter_append, ih]

theorem flatMap_ite_single {α : Type} (keys : List Nat) (g : Nat) (xs : List α)
    (hnd : keys.Nodup) :
    keys.flatMap (fun k => if k = g then xs else []) =
      if g ∈ keys then xs else [] := by
  induction keys with
  | nil => simp
  | cons k rest ih =>
    rw [List.nodup_cons] at hnd
    simp only [List.flatMap_cons]
    by_cases hkg : k = g
    · subst hkg
      have : k ∉ rest := hnd.1
      rw [ih hnd.2]
      simp [this]
    · have hgk : g ≠ k := fun h => hkg h.symm
      rw [ih hnd.2]
      simp [hkg, hgk, List.mem_cons]

theorem scheduleList_filter (skills : List Skill) (g : Nat) :
    (scheduleList skills).filter (fun s => s.config.parallel_group = g) =
      skills.filter (fun s => s.config.parallel_group = g) := by
  rw [scheduleList_eq, filter_flatMap_dist]
  have hstep : ∀ k ∈ sortedGroupKeys skills,
      (skills.filter (fun s => s.config.parallel_group = k)).filter
        (fun s => s.config.parallel_group = g) =
      (if k = g then skills.filter (fun s => s.config.parallel_group = g)
       else []) := by
    intro k _
    rw [List.filter_filter]
    by_cases hkg : k = g
    · subst hkg
      simp only [if_pos rfl]
      refine List.filter_congr ?_
      intro s _
      by_cases h : s.config.parallel_group = k <;> simp [h]
    · simp only [if_neg hkg]
      rw [List.filter_eq_nil_iff]
      intro s _
      by_cases h : s.config.parallel_group = g
      · have hgk : ¬g = k := fun hc => hkg hc.symm
        simp [h, hgk]
      · simp [h]
  rw [flatMap_congr_mem hstep,
    flatMap_ite_single _ g _ (sortedGroupKeys_nodup skills)]
  by_cases hg : g ∈ sortedGroupKeys skills
  · simp [hg]
  · simp only [if_neg hg]
    symm
    rw [List.filter_eq_nil_iff]
    intro s hs
    simp only [decide_eq_true_eq]
    intro hc
    exact hg (mem_sortedGroupKeys.2 ⟨s, hs, hc⟩)

theorem pairwise_le_map_flatMap {β : Type} (gf : β → Nat) (keys : List Nat)
    (f : Nat → List β)
    (hf : ∀ g, ∀ e ∈ f g, gf e = g)
    (hk : keys.Pairwise (· ≤ ·)) :
    ((keys.flatMap f).map gf).Pairwise (· ≤ ·) := by
  induction keys with
  | nil => exact List.Pairwise.nil
  | cons g rest ih =>
    rw [List.pairwise_cons] at hk
    simp only [List.flatMap_cons, List.map_append]
    rw [List.pairwise_append]
    refine ⟨?_, ih hk.2, ?_⟩
    · have hall : ∀ x ∈ (f g).map gf, x = g := by
        intro x hx
        rcases List.mem_map.1 hx with ⟨e, he, rfl⟩
        exact hf g e he
      have : (f g).map gf = List.replicate ((f g).length) g := by
        rw [List.eq_replicate_iff]
        exact ⟨by simp, hall⟩
      rw [this]
      exact List.pairwise_replicate.2 (Or.inr le_rfl)
    · intro a ha b hb
      rcases List.mem_map.1 ha with ⟨e, he, rfl⟩
      rcases List.mem_map.1 hb with ⟨e2, he2, rfl⟩
      rcases List.mem_flatMap.1 he2 with ⟨g2, hg2, he2'⟩
      rw [hf g e he, hf g2 e2 he2']
      exact hk.1 g2 hg2

theorem scheduleList_group_pairwise (skills : List Skill) :
    ((scheduleList skills).map
      (fun s => s.config.parallel_group)).Pairwise (· ≤ ·) := by
  rw [scheduleList_eq]
  refine pairwise_le_map_flatMap _ _ _ ?_ (sortedGroupKeys_pairwise skills)
  intro g s hs
  exact of_decide_eq_true (List.mem_filter.1 hs).2

theorem executionTrace_eq (skills : List Skill) :
    executionTrace skills = (sortedGroupKeys skills).flatMap
      (fun g =>
        ((skills.filter (fun s => s.config.parallel_group = g)).map
          (fun s => SchedEvent.launch s.id g)) ++
        ((skills.filter (fun s => s.config.parallel_group = g)).map
          (fun s => SchedEvent.finish s.id g))) := by
  unfold executionTrace groupSkills
  rw [List.flatMap_map]

theorem executionTrace_group_pairwise (skills : List Skill) :
    ((executionTrace skills).map SchedEvent.group).Pairwise (· ≤ ·) := by
  rw [executionTrace_eq]
  refine pairwise_le_map_flatMap _ _ _ ?_ (sortedGroupKeys_pairwise skills)
  intro g e he
  rcases List.mem_append.1 he with h | h <;>
    rcases List.mem_map.1 h with ⟨s, _, rfl⟩ <;> rfl

theorem executeSkills_eq (skills : List Skill) (run : Skill → TaskOutcome) :
    executeSkills skills run =
      (scheduleList skills).map (fun s => convertOutcome s (run s)) := by
  unfold executeSkills scheduleList
  rw [List.map_flatMap]

theorem executeSkills_length (skills : List Skill) (run : Skill → TaskOutcome) :
    (executeSkills skills run).length = skills.length := by
  rw [executeSkills_eq, List.length_map, (scheduleList_perm skills).length_eq]

theorem executionTrace_group_le (skills : List Skill) {i j : Nat}
    {e1 e2 : SchedEvent}
    (h1 : (executionTrace skills)[i]? = some e1)
    (h2 : (executionTrace skills)[j]? = some e2)
    (hij : i ≤ j) : e1.group ≤ e2.group := by
  have hi : i < (executionTrace skills).length := by
    by_contra hcon
    rw [List.getElem?_eq_none (Nat.le_of_not_lt hcon)] at h1
    exact Option.noConfusion h1
  have hj : j < (executionTrace skills).length := by
    by_contra hcon
    rw [List.getElem?_eq_none (Nat.le_of_not_lt hcon)] at h2
    exact Option.noConfusion h2
  have hgi : (executionTrace skills)[i] = e1 := by
    rw [List.getElem?_eq_getElem hi] at h1
    exact Option.some.inj h1
  have hgj : (executionTrace skills)[j] = e2 := by
    rw [List.getElem?_eq_getElem hj] at h2
    exact Option.some.inj h2
  rcases Nat.lt_or_ge i j with hlt | hge
  · have hp := executionTrace_group_pairwise skills
    rw [List.pairwise_iff_get] at hp
    have hlen : (executionTrace skills).length =
        ((executionTrace skills).map SchedEvent.group).length := by simp
    have := hp ⟨i, hlen ▸ hi⟩ ⟨j, hlen ▸ hj⟩ hlt
    simp only [List.get_eq_getElem, List.getElem_map] at this
    rw [hgi, hgj] at this
    exact this
  · have : i = j := Nat.le_antisymm hij hge
    subst this
    rw [hgi] at hgj
    rw [hgj]

/-! ## Helper lemmas on the attempt loop -/

theorem runAttempts_attempts_le (sid : String) (ts rc : Nat) (mu vu : String)
    (beh : Nat → AttemptOutcome) :
    ∀ remaining attempt le r,
      (runAttempts sid ts rc mu vu beh remaining attempt le r).attemptsMade ≤
        attempt + remaining := by
  intro remaining
  induction remaining with
  | zero => intro attempt le r; simp [runAttempts]
  | succ rem ih =>
    intro attempt le r
    cases hbeh : beh attempt with
    | success d => simp [runAttempts, hbeh]
    | timeout =>
      simp only [runAttempts, hbeh]
      split
      · have := ih (attempt + 1) (some (failureMsg ts .timeout)) (attempt + 1)
        simpa using Nat.le_trans this (by omega)
      · have := ih (attempt + 1) (some (failureMsg ts .timeout)) (attempt + 1)
        exact Nat.le_trans this (by omega)
    | clientError m =>
      simp only [runAttempts, hbeh]
      split
      · have := ih (attempt + 1) (some (failureMsg ts (.clientError m))) (attempt + 1)
        simpa using Nat.le_trans this (by omega)
      · have := ih (attempt + 1) (some (failureMsg ts (.clientError m))) (attempt + 1)
        exact Nat.le_trans this (by omega)
    | unexpected m =>
      simp only [runAttempts, hbeh]
      split
      · have := ih (attempt + 1) (some (failureMsg ts (.unexpected m))) (attempt + 1)
        simpa using Nat.le_trans this (by omega)
      · have := ih (attempt + 1) (some (failureMsg ts (.unexpected m))) (attempt + 1)
        exact Nat.le_trans this (by omega)

theorem runAttempts_attempts_ge (sid : String) (ts rc : Nat) (mu vu : String)
    (beh : Nat → AttemptOutcome) :
    ∀ remaining attempt le r,
      attempt ≤ (runAttempts sid ts rc mu vu beh remaining attempt le r).attemptsMade := by
  intro remaining
  induction remaining with
  | zero => intro attempt le r; simp [runAttempts]
  | succ rem ih =>
    intro attempt le r
    cases hbeh : beh attempt with
    | success d => simp [runAttempts, hbeh]
    | timeout =>
      simp only [runAttempts, hbeh]
      split
      · have := ih (attempt + 1) (some (failureMsg ts .timeout)) (attempt + 1)
        simpa using Nat.le_trans (by omega) this
      · have := ih (attempt + 1) (some (failureMsg ts .timeout)) (attempt + 1)
        exact Nat.le_trans (by omega) this
    | clientError m =>
      simp only [runAttempts, hbeh]
      split
      · have := ih (attempt + 1) (some (failureMsg ts (.clientError m))) (attempt + 1)
        simpa using Nat.le_trans (by omega) this
      · have := ih (attempt + 1) (some (failureMsg ts (.clientError m))) (attempt + 1)
        exact Nat.le_trans (by omega) this
    | unexpected m =>
      simp only [runAttempts, hbeh]
      split
      · have := ih (attempt + 1) (some (failureMsg ts (.unexpected m))) (attempt + 1)
        simpa using Nat.le_trans (by omega) this
      · have := ih (attempt + 1) (some (failureMsg ts (.unexpected m))) (attempt + 1)
        exact Nat.le_trans (by omega) this

theorem runAttempts_failure_step (sid : String) (ts rc : Nat) (mu vu : String)
    (beh : Nat → AttemptOutcome) (rem attempt : Nat) (le : Option String)
    (r : Nat) (hbeh : (beh attempt).isFailure = true) :
    runAttempts sid ts rc mu vu beh (rem + 1) attempt le r =
      (if attempt < rc then
        { runAttempts sid ts rc mu vu beh rem (attempt + 1)
            (some (failureMsg ts (beh attempt))) (attempt + 1) with
          sleeps := 1 * (attempt + 1) ::
            (runAttempts sid ts rc mu vu beh rem (attempt + 1)
              (some (failureMsg ts (beh attempt))) (attempt + 1)).sleeps }
      else
        runAttempts sid ts rc mu vu beh rem (attempt + 1)
          (some (failureMsg ts (beh attempt))) (attempt + 1)) := by
  cases hb : beh attempt with
  | success d => rw [hb] at hbeh; simp [AttemptOutcome.isFailure] at hbeh
  | timeout => simp only [runAttempts, hb]
  | clientError m => simp only [runAttempts, hb]
  | unexpected m => simp only [runAttempts, hb]

theorem runAttempts_success_step (sid : String) (ts rc : Nat) (mu vu : String)
    (beh : Nat → AttemptOutcome) (rem attempt : Nat) (le : Option String)
    (r : Nat) (d : Dict) (hbeh : beh attempt = .success d) :
    runAttempts sid ts rc mu vu beh (rem + 1) attempt le r =
      { result := { skill_id := sid, success := true, data := some d,
                    error := none, execution_time_ms := 0,
                    model_used := mu, vendor_used := vu, retries := r },
        attemptsMade := attempt + 1, sleeps := [] } := by
  simp only [runAttempts, hbeh]

theorem runAttempts_attempts_ge_one (sid : String) (ts rc : Nat)
    (mu vu : String) (beh : Nat → AttemptOutcome) (rem attempt : Nat)
    (le : Option String) (r : Nat) :
    attempt + 1 ≤
      (runAttempts sid ts rc mu vu beh (rem + 1) attempt le r).attemptsMade := by
  cases hb : beh attempt with
  | success d => rw [runAttempts_success_step sid ts rc mu vu beh rem attempt le r d hb]
  | timeout =>
    rw [runAttempts_failure_step sid ts rc mu vu beh rem attempt le r (by simp [hb, AttemptOutcome.isFailure])]
    have := runAttempts_attempts_ge sid ts rc mu vu beh rem (attempt + 1)
      (some (failureMsg ts (beh attempt))) (attempt + 1)
    split <;> simpa using this
  | clientError m =>
    rw [runAttempts_failure_step sid ts rc mu vu beh rem attempt le r (by simp [hb, AttemptOutcome.isFailure])]
    have := runAttempts_attempts_ge sid ts rc mu vu beh rem (attempt + 1)
      (some (failureMsg ts (beh attempt))) (attempt + 1)
    split <;> simpa using this
  | unexpected m =>
    rw [runAttempts_failure_step sid ts rc mu vu beh rem attempt le r (by simp [hb, AttemptOutcome.isFailure])]
    have := runAttempts_attempts_ge sid ts rc mu vu beh rem (attempt + 1)
      (some (failureMsg ts (beh attempt))) (attempt + 1)
    split <;> simpa using this

theorem runAttempts_sleeps (sid : String) (ts rc : Nat) (mu vu : String)
    (beh : Nat → AttemptOutcome) :
    ∀ remaining attempt le r, attempt + remaining = rc + 1 →
      (runAttempts sid ts rc mu vu beh remaining attempt le r).sleeps =
        List.range' (attempt + 1)
          ((runAttempts sid ts rc mu vu beh remaining attempt le r).attemptsMade
            - (attempt + 1)) := by
  intro remaining
  induction remaining with
  | zero =>
    intro attempt le r _
    simp [runAttempts]
  | succ rem ih =>
    intro attempt le r hinv
    by_cases hfail : (beh attempt).isFailure = true
    · rw [runAttempts_failure_step sid ts rc mu vu beh rem attempt le r hfail]
      have hinv' : (attempt + 1) + rem = rc + 1 := by omega
      have hrec := ih (attempt + 1) (some (failureMsg ts (beh attempt)))
        (attempt + 1) hinv'
      by_cases hlt : attempt < rc
      · rw [if_pos hlt]
        have hrem : 1 ≤ rem := by omega
        have hge : attempt + 2 ≤
            (runAttempts sid ts rc mu vu beh rem (attempt + 1)
              (some (failureMsg ts (beh attempt))) (attempt + 1)).attemptsMade := by
          cases rem with
          | zero => omega
          | succ rem2 =>
            have := runAttempts_attempts_ge_one sid ts rc mu vu beh rem2
              (attempt + 1) (some (failureMsg ts (beh attempt))) (attempt + 1)
            omega
        simp only
        rw [hrec]
        have hcount :
            (runAttempts sid ts rc mu vu beh rem (attempt + 1)
              (some (failureMsg ts (beh attempt))) (attempt + 1)).attemptsMade
              - (attempt + 1) =
            ((runAttempts sid ts rc mu vu beh rem (attempt + 1)
              (some (failureMsg ts (beh attempt))) (attempt + 1)).attemptsMade
              - (attempt + 2)) + 1 := by omega
        rw [hcount, List.range'_succ]
        simp
      · rw [if_neg hlt]
        have hrem0 : rem = 0 := by omega
        subst hrem0
        simp [runAttempts]
    · have hsucc : ∃ d, beh attempt = .success d := by
        cases hb : beh attempt with
        | success d => exact ⟨d, rfl⟩
        | timeout => rw [hb] at hfail; simp [AttemptOutcome.isFailure] at hfail
        | clientError m => rw [hb] at hfail; simp [AttemptOutcome.isFailure] at hfail
        | unexpected m => rw [hb] at hfail; simp [AttemptOutcome.isFailure] at hfail
      rcases hsucc with ⟨d, hd⟩
      rw [runAttempts_success_step sid ts rc mu vu beh rem attempt le r d hd]
      simp

theorem runAttempts_allFail (sid : String) (ts rc : Nat) (mu vu : String)
    (beh : Nat → AttemptOutcome) :
    ∀ remaining attempt le r, 1 ≤ remaining →
      attempt + remaining = rc + 1 →
      (∀ a, attempt ≤ a → a ≤ rc → (beh a).isFailure = true) →
      (runAttempts sid ts rc mu vu beh remaining attempt le r).result.success = false ∧
      (runAttempts sid ts rc mu vu beh remaining attempt le r).result.error =
        some (failureMsg ts (beh rc)) ∧
      (runAttempts sid ts rc mu vu beh remaining attempt le r).result.retries = rc + 1 ∧
      (runAttempts sid ts rc mu vu beh remaining attempt le r).attemptsMade = rc + 1 := by
  intro remaining
  induction remaining with
  | zero => intro attempt le r h1; omega
  | succ rem ih =>
    intro attempt le r _ hinv hall
    have hfail : (beh attempt).isFailure = true :=
      hall attempt le_rfl (by omega)
    rw [runAttempts_failure_step sid ts rc mu vu beh rem attempt le r hfail]
    by_cases hrem : 1 ≤ rem
    · have hrec := ih (attempt + 1) (some (failureMsg ts (beh attempt)))
        (attempt + 1) hrem (by omega)
        (fun a ha1 ha2 => hall a (by omega) ha2)
      by_cases hlt : attempt < rc
      · rw [if_pos hlt]
        exact ⟨hrec.1, hrec.2.1, hrec.2.2.1, hrec.2.2.2⟩
      · rw [if_neg hlt]
        exact hrec
    · have hrem0 : rem = 0 := by omega
      subst hrem0
      have hattempt : attempt = rc := by omega
      have hlt : ¬attempt < rc := by omega
      rw [if_neg hlt, hattempt]
      simp [runAttempts]

/-! ## Helper lemmas on dict lookup and deep merge -/

theorem lookup_setKey_self (l : Dict) (k : String) (v : Jv) :
    lookup (setKey l k v) k = some v := by
  induction l with
  | nil => simp [setKey, lookup]
  | cons kv rest ih =>
    obtain ⟨k1, w⟩ := kv
    by_cases h : k1 = k
    · simp [setKey, lookup, h]
    · simp [setKey, lookup, h, ih]

theorem lookup_setKey_ne (l : Dict) (k : String) (v : Jv) (k2 : String)
    (h : k ≠ k2) : lookup (setKey l k v) k2 = lookup l k2 := by
  induction l with
  | nil => simp [setKey, lookup, h]
  | cons kv rest ih =>
    obtain ⟨k1, w⟩ := kv
    by_cases h1 : k1 = k
    · subst h1
      simp [setKey, lookup, h]
    · simp only [setKey, if_neg h1, lookup]
      by_cases h2 : k1 = k2
      · simp [h2]
      · simp [h2, ih]

theorem lookup_eq_none_of_not_mem (l : Dict) (k : String)
    (h : k ∉ l.map Prod.fst) : lookup l k = none := by
  induction l with
  | nil => rfl
  | cons kv rest ih =>
    obtain ⟨k1, w⟩ := kv
    simp only [List.map_cons, List.mem_cons] at h
    push_neg at h
    simp only [lookup, if_neg (fun hc : k1 = k => h.1 hc.symm)]
    exact ih h.2

theorem lookup_deepMerge :
    ∀ (update base : Dict), (update.map Prod.fst).Nodup → ∀ k,
      lookup (deepMerge base update) k =
        deepMergeSpec (lookup base k) (lookup update k) := by
  intro update
  induction update with
  | nil =>
    intro base _ k
    rw [deepMerge]
    cases lookup base k <;> rfl
  | cons kv rest ih =>
    intro base hnd k
    obtain ⟨k1, v⟩ := kv
    simp only [List.map_cons, List.nodup_cons] at hnd
    by_cases hk : k1 = k
    · subst hk
      have hrest : lookup rest k1 = none :=
        lookup_eq_none_of_not_mem rest k1 hnd.1
      have hupd : lookup ((k1, v) :: rest) k1 = some v := by
        simp [lookup]
      rw [hupd]
      cases hb : lookup base k1 with
      | none =>
        rw [deepMerge, hb, ih _ hnd.2 k1, hrest, lookup_setKey_self]
        rfl
      | some bv =>
        rw [deepMerge, hb, ih _ hnd.2 k1, hrest, lookup_setKey_self]
        rfl
    · have hupd : lookup ((k1, v) :: rest) k = lookup rest k := by
        simp [lookup, hk]
      rw [hupd]
      cases hb : lookup base k1 with
      | none =>
        rw [deepMerge, hb, ih _ hnd.2 k, lookup_setKey_ne base k1 _ k hk]
      | some bv =>
        rw [deepMerge, hb, ih _ hnd.2 k, lookup_setKey_ne base k1 _ k hk]

/-- Results that do not participate leave the merge accumulator unchanged. -/
theorem mergeStep_skip (strategy : MergeStrategy) (acc : Dict)
    (r : SkillExecutionResult) (h : participates r = false) :
    mergeStep strategy acc r = acc := by
  simp [mergeStep, h]

theorem foldl_mergeStep_filter (strategy : MergeStrategy)
    (results : List SkillExecutionResult) :
    ∀ acc : Dict,
      results.foldl (mergeStep strategy) acc =
        (results.filter participates).foldl (mergeStep strategy) acc := by
  induction results with
  | nil => intro acc; rfl
  | cons r rest ih =>
    intro acc
    by_cases h : participates r
    · simp only [List.foldl_cons, List.filter_cons, if_pos h]
      exact ih _
    · have h0 : participates r = false := by
        cases hp : participates r
        · rfl
        · exact absurd hp h
      simp only [List.foldl_cons, List.filter_cons, h0,
        mergeStep_skip strategy acc r h0]
      simp only [Bool.false_eq_true, if_false]
      exact ih acc

/-- `mergeResults` only folds the participating results, in list order. -/
theorem mergeResults_filter (strategy : MergeStrategy)
    (results : List SkillExecutionResult) :
    mergeResults strategy results =
      mergeResults strategy (results.filter participates) := by
  unfold mergeResults
  exact foldl_mergeStep_filter strategy results []

/-! ## Helper lemmas on validation -/

theorem reqStep_foldlM (data : Dict) (fields : List String) :
    ∀ acc : List String,
      (fields.map Jv.str).foldlM (reqStep data) acc =
        Except.ok (acc ++ fields.filter
          (fun f => pyIsNone (getNestedValue data f))) := by
  induction fields with
  | nil => intro acc; simp [List.foldlM, Pure.pure, Except.pure]
  | cons f fs ih =>
    intro acc
    simp only [List.map_cons, List.foldlM_cons]
    have hstep : reqStep data acc (Jv.str f) =
        Except.ok (if pyIsNone (getNestedValue data f) then acc ++ [f]
          else acc) := by
      unfold reqStep asPathString
      by_cases h : pyIsNone (getNestedValue data f) <;>
        simp [h, Bind.bind, Except.bind, Pure.pure, Except.pure]
    rw [hstep]
    by_cases h : pyIsNone (getNestedValue data f)
    · simp only [if_pos h, List.filter_cons, h]
      show (fs.map Jv.str).foldlM (reqStep data) (acc ++ [f]) = _
      rw [ih (acc ++ [f])]
      simp
    · have h0 : pyIsNone (getNestedValue data f) = false := by
        cases hn : pyIsNone (getNestedValue data f)
        · rfl
        · exact absurd hn h
      simp only [if_neg h, List.filter_cons, h0]
      show (fs.map Jv.str).foldlM (reqStep data) acc = _
      rw [ih acc]
      simp

theorem valStep_decompose (data : Dict)
    (acc : List String × List String × List CheckResult)
    (rule : ValidationRule) :
    valStep data acc rule =
      (acc.1 ++ (valStep data ([], [], []) rule).1,
       acc.2.1 ++ (valStep data ([], [], []) rule).2.1,
       acc.2.2 ++ (valStep data ([], [], []) rule).2.2) := by
  unfold valStep
  by_cases h1 : (runValidationRule rule data).status = "failed" <;>
    by_cases h2 : rule.severity = "error" <;> simp [h1, h2]

theorem valFold_append (data : Dict) (rules : List ValidationRule) :
    ∀ e w : List String, ∀ ch : List CheckResult,
      rules.foldl (valStep data) (e, w, ch) =
        (e ++ (rules.foldl (valStep data) ([], [], [])).1,
         w ++ (rules.foldl (valStep data) ([], [], [])).2.1,
         ch ++ (rules.foldl (valStep data) ([], [], [])).2.2) := by
  induction rules with
  | nil => intro e w ch; simp
  | cons r rs ih =>
    intro e w ch
    simp only [List.foldl_cons]
    rw [valStep_decompose data (e, w, ch) r]
    rw [ih (e ++ (valStep data ([], [], []) r).1)
      (w ++ (valStep data ([], [], []) r).2.1)
      (ch ++ (valStep data ([], [], []) r).2.2)]
    rw [valStep_decompose data ([], [], []) r]
    simp only [List.nil_append]
    rw [ih ((valStep data ([], [], []) r).1)
      ((valStep data ([], [], []) r).2.1)
      ((valStep data ([], [], []) r).2.2)]
    simp [List.append_assoc]

/-! ## The claims -/

/-- C3: for every task and LLM behavior, the runner makes at most
`retry_count + 1` attempts (0-based attempt indices 0..retry_count); and for
a task with `maxRetries = 2` and a client stub that fails twice then
succeeds, it makes exactly 3 attempts and returns `success = true` with
`retriesUsed = 2`. -/
theorem C3_attempt_budget (skill : Skill) (dv : String) (dm : Option String)
    (vdm : String → String) (beh : Nat → AttemptOutcome) :
    (executeSingleSkill skill dv dm vdm beh).attemptsMade ≤
      skill.config.retry_count + 1 ∧
    (executeSingleSkill skillT "anthropic" none
      (fun _ => "claude") behFailTwice).attemptsMade = 3 ∧
    (executeSingleSkill skillT "anthropic" none
      (fun _ => "claude") behFailTwice).result.success = true ∧
    (executeSingleSkill skillT "anthropic" none
      (fun _ => "claude") behFailTwice).result.retries = 2 := by
  refine ⟨?_, rfl, rfl, rfl⟩
  simp only [executeSingleSkill]
  refine le_trans (runAttempts_attempts_le _ _ _ _ _ _ _ _ _ _) ?_
  omega

/-- C9: between successive attempts the runner sleeps
`1 * (attempt + 1)` seconds: after the k-th failed attempt (0-based) the
delay is `k + 1`, so the recorded delays are exactly `1, 2, 3, …` —
`List.range' 1 (attempts − 1)`; in particular two failures before success
give delays `[1, 2]`, and exhausting three attempts also gives `[1, 2]`
(no sleep after the final attempt). -/
theorem C9_linear_backoff (skill : Skill) (dv : String) (dm : Option String)
    (vdm : String → String) (beh : Nat → AttemptOutcome) :
    (executeSingleSkill skill dv dm vdm beh).sleeps =
      List.range' 1 ((executeSingleSkill skill dv dm vdm beh).attemptsMade - 1) ∧
    (executeSingleSkill skillT "anthropic" none
      (fun _ => "claude") behFailTwice).sleeps = [1, 2] ∧
    (executeSingleSkill skillT "anthropic" none
      (fun _ => "claude") behAllTimeout).sleeps = [1, 2] := by
  refine ⟨?_, rfl, rfl⟩
  simp only [executeSingleSkill]
  have h := runAttempts_sleeps skill.id skill.config.timeout_seconds
    skill.config.retry_count
    (if (match skill.getEffectiveModel dm with
         | none => vdm (skill.getEffectiveVendor dv)
         | some m => if m = "" then vdm (skill.getEffectiveVendor dv) else m) = ""
     then "default"
     else (match skill.getEffectiveModel dm with
           | none => vdm (skill.getEffectiveVendor dv)
           | some m => if m = "" then vdm (skill.getEffectiveVendor dv) else m))
    (skill.getEffectiveVendor dv) beh (skill.config.retry_count + 1) 0 none 0
    (by omega)
  simpa using h

/-- C4: the runner is total — for every behavior it returns a
`SkillExecutionResult`; when every attempt fails, that result has
`success = false` and carries the last attempt's error message; and the
group scheduler converts an exception surfacing from `gather` into a failed
result for the corresponding skill instead of propagating it, so every
scheduled task yields exactly one result. -/
theorem C4_never_raises :
    (∀ (skill : Skill) (dv : String) (dm : Option String)
        (vdm : String → String) (beh : Nat → AttemptOutcome),
      (∀ a, a ≤ skill.config.retry_count → (beh a).isFailure = true) →
      (executeSingleSkill skill dv dm vdm beh).result.success = false ∧
      (executeSingleSkill skill dv dm vdm beh).result.error =
        some (failureMsg skill.config.timeout_seconds
          (beh skill.config.retry_count))) ∧
    (∀ (skill : Skill) (msg : String),
      convertOutcome skill (.exn msg) =
        { skill_id := skill.id, success := false, data := none,
          error := some msg, execution_time_ms := 0, model_used := "unknown",
          vendor_used := "unknown", retries := 0 }) ∧
    (∀ (skills : List Skill) (run : Skill → TaskOutcome),
      (executeSkills skills run).length = skills.length) := by
  refine ⟨?_, fun skill msg => rfl, executeSkills_length⟩
  intro skill dv dm vdm beh hfail
  constructor
  · simp only [executeSingleSkill]
    exact (runAttempts_allFail _ _ _ _ _ _ _ _ _ _ (by omega) (by omega)
      (fun a _ h2 => hfail a h2)).1
  · simp only [executeSingleSkill]
    exact (runAttempts_allFail _ _ _ _ _ _ _ _ _ _ (by omega) (by omega)
      (fun a _ h2 => hfail a h2)).2.1

theorem computeStatus_spec (results : List SkillExecutionResult)
    (h : results ≠ []) :
    (computeStatus results = .failed ↔ ∀ r ∈ results, r.success = false) ∧
    (computeStatus results = .partialStatus ↔
      ((∃ r ∈ results, r.success = true) ∧ (∃ r ∈ results, r.success = false))) ∧
    (computeStatus results = .completed ↔ ∀ r ∈ results, r.success = true) := by
  unfold computeStatus
  have hfl : ((results.filter (fun r => !r.success)).length = results.length) ↔
      ∀ r ∈ results, r.success = false := by
    rw [List.filter_length_eq_length]
    constructor
    · intro hh r hr; have := hh r hr; simpa using this
    · intro hh r hr; simpa using hh r hr
  have hem : ((results.filter (fun r => !r.success)).isEmpty = true) ↔
      ∀ r ∈ results, r.success = true := by
    rw [List.isEmpty_iff, List.filter_eq_nil_iff]
    constructor
    · intro hh r hr
      have := hh r hr
      simpa using this
    · intro hh r hr; simp [hh r hr]
  rcases List.exists_mem_of_ne_nil results h with ⟨r0, hr0⟩
  by_cases h1 : (results.filter (fun r => !r.success)).length = results.length
  · rw [if_pos h1]
    have hall : ∀ r ∈ results, r.success = false := hfl.1 h1
    refine ⟨⟨fun _ => hall, fun _ => rfl⟩, ?_, ?_⟩
    · constructor
      · intro hcon; exact absurd hcon (by decide)
      · rintro ⟨⟨r, hr, hsucc⟩, -⟩
        rw [hall r hr] at hsucc
        exact Bool.noConfusion hsucc
    · constructor
      · intro hcon; exact absurd hcon (by decide)
      · intro hsucc
        have h1' := hsucc r0 hr0
        have h2' := hall r0 hr0
        rw [h1'] at h2'
        exact absurd h2' (by decide)
  · rw [if_neg h1]
    have hexs : ∃ r ∈ results, r.success = true := by
      by_contra hcon
      push_neg at hcon
      refine h1 (hfl.2 ?_)
      intro r hr
      have := hcon r hr
      simpa using this
    by_cases h2 : (results.filter (fun r => !r.success)).isEmpty
    · have hb : ¬((!(results.filter (fun r => !r.success)).isEmpty) = true) := by
        rw [h2]; simp
      rw [if_neg hb]
      have hall : ∀ r ∈ results, r.success = true := hem.1 h2
      refine ⟨?_, ?_, ⟨fun _ => hall, fun _ => rfl⟩⟩
      · constructor
        · intro hcon; exact absurd hcon (by decide)
        · intro hf
          have h1' := hall r0 hr0
          have h2' := hf r0 hr0
          rw [h1'] at h2'
          exact absurd h2' (by decide)
      · constructor
        · intro hcon; exact absurd hcon (by decide)
        · rintro ⟨-, ⟨r, hr, hfail⟩⟩
          have := hall r hr
          rw [this] at hfail
          exact Bool.noConfusion hfail
    · have hb : (!(results.filter (fun r => !r.success)).isEmpty) = true := by
        cases hx : (results.filter (fun r => !r.success)).isEmpty
        · rfl
        · exact absurd hx h2
      rw [if_pos hb]
      have hexf : ∃ r ∈ results, r.success = false := by
        have hne : results.filter (fun r => !r.success) ≠ [] := by
          intro hc
          rw [List.isEmpty_iff] at h2
          exact h2 hc
        rcases List.exists_mem_of_ne_nil _ hne with ⟨r, hrf⟩
        rw [List.mem_filter] at hrf
        refine ⟨r, hrf.1, ?_⟩
        have := hrf.2
        simpa using this
      refine ⟨?_, ⟨fun _ => ⟨hexs, hexf⟩, fun _ => rfl⟩, ?_⟩
      · constructor
        · intro hcon; exact absurd hcon (by decide)
        · intro hf; exact absurd (hfl.2 hf) h1
      · constructor
        · intro hcon; exact absurd hcon (by decide)
        · intro hallsucc
          rcases hexf with ⟨r, hr, hfail⟩
          have := hallsucc r hr
          rw [this] at hfail
          exact Bool.noConfusion hfail

/-- C2: for a non-empty enabled-task set the engine's final status is
`FAILED` iff every task result failed, `PARTIAL` iff some succeeded and
some failed, and `COMPLETED` iff all succeeded; a task set with zero
enabled tasks instead returns immediately as `FAILED` with the
"No active skills to execute" error, never a vacuous success. -/
theorem C2_final_status (skills : List Skill) (strategy : MergeStrategy)
    (run : Skill → TaskOutcome) :
    (getActiveSkills skills = [] →
      executeEngine skills strategy run =
        { status := .failed, error := some "No active skills to execute" }) ∧
    (getActiveSkills skills ≠ [] →
      (executeEngine skills strategy run).skill_results =
        executeSkills (getActiveSkills skills) run ∧
      (executeEngine skills strategy run).skill_results ≠ [] ∧
      ((executeEngine skills strategy run).status = .failed ↔
        ∀ r ∈ (executeEngine skills strategy run).skill_results,
          r.success = false) ∧
      ((executeEngine skills strategy run).status = .partialStatus ↔
        ((∃ r ∈ (executeEngine skills strategy run).skill_results,
            r.success = true) ∧
         (∃ r ∈ (executeEngine skills strategy run).skill_results,
            r.success = false))) ∧
      ((executeEngine skills strategy run).status = .completed ↔
        ∀ r ∈ (executeEngine skills strategy run).skill_results,
          r.success = true)) := by
  constructor
  · intro h
    simp [executeEngine, h]
  · intro h
    have hne : (getActiveSkills skills).isEmpty = false := by
      cases hx : (getActiveSkills skills).isEmpty
      · rfl
      · rw [List.isEmpty_iff] at hx; exact absurd hx h
    have hres : (executeEngine skills strategy run).skill_results =
        executeSkills (getActiveSkills skills) run := by
      simp [executeEngine, hne]
    have hstat : (executeEngine skills strategy run).status =
        computeStatus (executeSkills (getActiveSkills skills) run) := by
      simp [executeEngine, hne]
    have hresne : executeSkills (getActiveSkills skills) run ≠ [] := by
      intro hc
      have := executeSkills_length (getActiveSkills skills) run
      rw [hc] at this
      simp only [List.length_nil] at this
      exact h (List.eq_nil_of_length_eq_zero this.symm)
    have hspec := computeStatus_spec
      (executeSkills (getActiveSkills skills) run) hresne
    rw [hres, hstat]
    exact ⟨rfl, hresne, hspec.1, hspec.2.1, hspec.2.2⟩

/-- Witness for C2: a task set whose only task is disabled fails
immediately with the no-active-tasks error, and a singleton active task set
whose task throws ends as `FAILED`. -/
theorem C2_final_status_witness :
    executeEngine [disabledSkill] .merge_deep (fun _ => .exn "boom") =
      { status := .failed, error := some "No active skills to execute" } ∧
    (executeEngine [skillT] .merge_deep (fun _ => .exn "boom")).status =
      .failed := by
  refine ⟨(C2_final_status [disabledSkill] .merge_deep
    (fun _ => .exn "boom")).1 rfl, ?_⟩
  have h := (C2_final_status [skillT] .merge_deep (fun _ => .exn "boom")).2
    (by exact List.cons_ne_nil _ _)
  refine h.2.2.1.2 ?_
  intro r hr
  have hr2 : r ∈ [convertOutcome skillT (TaskOutcome.exn "boom")] := hr
  rw [List.mem_singleton.1 hr2]
  rfl

/-- Witness for C4: a task whose client times out on all three attempts
comes back as a failed result carrying the final timeout message, and the
scheduler yields one result per input task on the sample task set. -/
theorem C4_never_raises_witness :
    (executeSingleSkill skillT "anthropic" none
      (fun _ => "claude") behAllTimeout).result.success = false ∧
    (executeSingleSkill skillT "anthropic" none
      (fun _ => "claude") behAllTimeout).result.error =
      some "Timeout after 45s" ∧
    (executeSkills sampleSkills (fun _ => .exn "boom")).length = 4 := by
  have h := C4_never_raises.1 skillT "anthropic" none
    (fun _ => "claude") behAllTimeout (fun a _ => rfl)
  exact ⟨h.1, h.2, C4_never_raises.2.2 sampleSkills (fun _ => .exn "boom")⟩

/-- C5: groups run strictly sequentially in ascending group order — in the
execution trace, the result of any lower-group task is produced before any
higher-group task is launched; the order in which tasks are handed to the
runner is a stable ascending-group rearrangement of the input (same-group
tasks keep their input order), and the result list follows that order
positionally; the spec's `{1,2,1,2}` scenario executes A and C (group 1) to
completion before launching B or D (group 2). -/
theorem C5_group_ordering (skills : List Skill) (run : Skill → TaskOutcome) :
    (∀ (i j : Nat) (id1 : String) (g1 : Nat) (id2 : String) (g2 : Nat),
      (executionTrace skills)[i]? = some (SchedEvent.finish id1 g1) →
      (executionTrace skills)[j]? = some (SchedEvent.launch id2 g2) →
      g1 < g2 → i < j) ∧
    (scheduleList skills).Perm skills ∧
    (∀ g, (scheduleList skills).filter (fun s => s.config.parallel_group = g) =
      skills.filter (fun s => s.config.parallel_group = g)) ∧
    ((scheduleList skills).map
      (fun s => s.config.parallel_group)).Pairwise (· ≤ ·) ∧
    executeSkills skills run =
      (scheduleList skills).map (fun s => convertOutcome s (run s)) ∧
    executionTrace sampleSkills =
      [SchedEvent.launch "A" 1, SchedEvent.launch "C" 1,
       SchedEvent.finish "A" 1, SchedEvent.finish "C" 1,
       SchedEvent.launch "B" 2, SchedEvent.launch "D" 2,
       SchedEvent.finish "B" 2, SchedEvent.finish "D" 2] := by
  refine ⟨?_, scheduleList_perm skills, scheduleList_filter skills,
    scheduleList_group_pairwise skills, executeSkills_eq skills run, rfl⟩
  intro i j id1 g1 id2 g2 h1 h2 hlt
  by_contra hcon
  push_neg at hcon
  have hle := executionTrace_group_le skills h2 h1 hcon
  simp only [SchedEvent.group] at hle
  omega

/-- Witness for C5: in the sample scenario, task A's (group 1) finish event
at trace position 2 precedes task B's (group 2) launch event at position 4;
and the schedule is a permutation of the input. -/
theorem C5_group_ordering_witness :
    (2 : Nat) < 4 ∧ (scheduleList sampleSkills).Perm sampleSkills := by
  have h := C5_group_ordering sampleSkills (fun _ => TaskOutcome.exn "boom")
  exact ⟨h.1 2 4 "A" 1 "B" 2 rfl rfl (by decide), h.2.1⟩

/-- C6: DeepMerge folds only the successful results with data, in list
order — failed or dataless results leave the accumulator unchanged; at each
key, two nested dicts merge recursively and any other combination lets the
later value replace the earlier one; and the spec's example
`[{nested:{a:1,b:2}}, {nested:{b:3,c:4}}]` merges to
`{nested:{a:1,b:3,c:4}}`. -/
theorem C6_deep_merge :
    (∀ (strategy : MergeStrategy) (acc : Dict) (r : SkillExecutionResult),
      r.success = false ∨ r.data = none → mergeStep strategy acc r = acc) ∧
    (∀ (strategy : MergeStrategy) (results : List SkillExecutionResult),
      mergeResults strategy results =
        mergeResults strategy (results.filter participates)) ∧
    (∀ (update base : Dict), (update.map Prod.fst).Nodup → ∀ k,
      lookup (deepMerge base update) k =
        deepMergeSpec (lookup base k) (lookup update k)) ∧
    (∀ bo uo : Dict, deepMergeVal (.obj bo) (.obj uo) = .obj (deepMerge bo uo)) ∧
    (∀ bv uv : Jv, bv.isObj = false ∨ uv.isObj = false →
      deepMergeVal bv uv = uv) ∧
    mergeResults .merge_deep [mergeResultA, mergeResultB] =
      [("nested", Jv.obj [("a", Jv.num 1), ("b", Jv.num 3), ("c", Jv.num 4)])] := by
  refine ⟨?_, mergeResults_filter, lookup_deepMerge,
    fun bo uo => by rw [deepMergeVal], ?_, ?_⟩
  · intro strategy acc r h
    refine mergeStep_skip strategy acc r ?_
    rcases h with h | h
    · simp [participates, h]
    · simp [participates, h]
  · intro bv uv h
    cases bv <;> cases uv <;> simp [deepMergeVal, Jv.isObj] at h ⊢
  · simp [mergeResults, mergeResultA, mergeResultB, mergeStep, participates,
      deepMerge, deepMergeVal, setKey, lookup]

/-- Witness for C6: a failed result is skipped by the merge step, the
recursive-merge characterization holds at the example's key, and a scalar
pair is replaced rather than combined. -/
theorem C6_deep_merge_witness :
    mergeStep .merge_deep [("x", Jv.num 1)] failedResult = [("x", Jv.num 1)] ∧
    lookup (deepMerge [("nested", Jv.obj [("a", Jv.num 1), ("b", Jv.num 2)])]
        [("nested", Jv.obj [("b", Jv.num 3), ("c", Jv.num 4)])]) "nested" =
      deepMergeSpec (some (Jv.obj [("a", Jv.num 1), ("b", Jv.num 2)]))
        (some (Jv.obj [("b", Jv.num 3), ("c", Jv.num 4)])) ∧
    deepMergeVal (Jv.num 1) (Jv.num 2) = Jv.num 2 := by
  have h := C6_deep_merge
  refine ⟨h.1 .merge_deep [("x", Jv.num 1)] failedResult (Or.inl rfl), ?_,
    h.2.2.2.2.1 (Jv.num 1) (Jv.num 2) (Or.inl rfl)⟩
  exact h.2.2.1 [("nested", Jv.obj [("b", Jv.num 3), ("c", Jv.num 4)])]
    [("nested", Jv.obj [("a", Jv.num 1), ("b", Jv.num 2)])] (by simp) "nested"

/-- C7: a SumCheck rule passes iff the value at the expected field equals
the computed sum exactly (Python `==` against the int accumulator, no
tolerance); operands prefixed `-` are subtracted and unresolvable operands
contribute 0; on failure the error message cites both values — the spec's
example `{total:100,a:60,b:40}` passes and the `b:30` variant fails with
"Expected 100, calculated 90". -/
theorem C7_sum_check (rid rname ef sev : String) (operands : List String)
    (data : Dict) (c : Int)
    (hc : (operands.map Jv.str).foldlM (evalOperand data) 0 = Except.ok c) :
    (pyEqInt (getNestedValue data ef) c = true →
      runValidationRule (sumRule rid rname ef operands sev) data =
        { name := rname, status := "passed" }) ∧
    (pyEqInt (getNestedValue data ef) c = false →
      runValidationRule (sumRule rid rname ef operands sev) data =
        { name := rname, status := "failed",
          error := some ("Expected " ++ pyStrOpt (getNestedValue data ef) ++
            ", calculated " ++ toString c) }) ∧
    (∀ (acc : Int) (s : String), startsWithDash s = true →
      evalOperand data acc (.str s) =
        pySubInt acc (pyOrZero (getNestedValue data (s.drop 1)))) ∧
    (∀ (acc : Int) (s : String), startsWithDash s = false →
      evalOperand data acc (.str s) =
        pyAddInt acc (pyOrZero (getNestedValue data s))) ∧
    (∀ acc : Int, pyAddInt acc (pyOrZero none) = Except.ok acc) ∧
    (∀ acc : Int, pySubInt acc (pyOrZero none) = Except.ok acc) ∧
    runValidationRule sumRuleAB sumDataGood =
      { name := "sum_total", status := "passed" } ∧
    runValidationRule sumRuleAB sumDataBad =
      { name := "sum_total", status := "failed",
        error := some "Expected 100, calculated 90" } := by
  have hrun : runValidationRule (sumRule rid rname ef operands sev) data =
      (if pyEqInt (getNestedValue data ef) c = true
       then { name := rname, status := "passed" }
       else { name := rname, status := "failed",
              error := some ("Expected " ++ pyStrOpt (getNestedValue data ef) ++
                ", calculated " ++ toString c) }) := by
    by_cases hp : pyEqInt (getNestedValue data ef) c = true
    · rw [if_pos hp]
      unfold runValidationRule evalRule sumRule evalSumCheck asPathString
        asIterable
      simp [lookup, hc, hp, Bind.bind, Except.bind, Pure.pure, Except.pure]
    · rw [if_neg hp]
      have hp0 : pyEqInt (getNestedValue data ef) c = false := by
        cases hx : pyEqInt (getNestedValue data ef) c
        · rfl
        · exact absurd hx hp
      unfold runValidationRule evalRule sumRule evalSumCheck asPathString
        asIterable
      simp [lookup, hc, hp0, Bind.bind, Except.bind, Pure.pure, Except.pure]
      show "Expected " ++ pyStrOpt (getNestedValue data ef) ++
          ", calculated " ++ toString c ++ "" = _
      simp
  refine ⟨?_, ?_, fun acc s hs => by simp [evalOperand, hs],
    fun acc s hs => by simp [evalOperand, hs],
    fun acc => by simp [pyOrZero, pyAddInt],
    fun acc => by simp [pyOrZero, pySubInt], rfl, rfl⟩
  · intro hp
    rw [hrun, if_pos hp]
  · intro hp
    rw [hrun, if_neg]
    rw [hp]
    exact Bool.false_ne_true

/-- Witness for C7: the operand sum of the failing example computes to 90,
and applying the theorem yields the passing and failing checks with the
cited message. -/
theorem C7_sum_check_witness :
    runValidationRule (sumRule "r_sum" "sum_total" "total" ["a", "b"] "error")
        sumDataBad =
      { name := "sum_total", status := "failed",
        error := some ("Expected " ++ pyStrOpt (getNestedValue sumDataBad "total")
          ++ ", calculated " ++ toString (90 : Int)) } ∧
    runValidationRule (sumRule "r_sum" "sum_total" "total" ["a", "b"] "error")
        sumDataGood =
      { name := "sum_total", status := "passed" } := by
  constructor
  · exact (C7_sum_check "r_sum" "sum_total" "total" "error" ["a", "b"]
      sumDataBad 90 rfl).2.1 rfl
  · exact (C7_sum_check "r_sum" "sum_total" "total" "error" ["a", "b"]
      sumDataGood 100 rfl).1 rfl

/-- C8 (amended): a RequiredFields rule fails iff at least one listed
dotted path resolves to Python `None` — the path is unresolvable *or* its
stored value is JSON `null` (indistinguishable from absence through
`_get_nested_value`); a field present with a non-null value, even a falsy
`0`, `false` or empty one, is never counted as missing; and the failure
error lists all of the missing fields — the example with `a = 0`,
`b.c = false` and `d` absent fails citing exactly `d`, while `{a: null}`
fails citing `a`. -/
theorem C8_required_fields (rid rname sev : String) (fields : List String)
    (data : Dict) :
    ((runValidationRule (requiredRule rid rname fields sev) data).status =
      if (fields.filter (fun f => pyIsNone (getNestedValue data f))).isEmpty
      then "passed" else "failed") ∧
    ((fields.filter (fun f => pyIsNone (getNestedValue data f))) ≠ [] →
      (runValidationRule (requiredRule rid rname fields sev) data).error =
        some ("Missing fields: " ++
          pyReprStrList
            (fields.filter (fun f => pyIsNone (getNestedValue data f))))) ∧
    (∀ f ∈ fields, ∀ v : Jv, getNestedValue data f = some v → v ≠ Jv.null →
      f ∉ fields.filter (fun f2 => pyIsNone (getNestedValue data f2))) ∧
    runValidationRule (requiredRule "q" "req" ["a", "b.c", "d"] "error")
        falsyData =
      { name := "req", status := "failed",
        error := some ("Missing fields: " ++ pyReprStrList ["d"]) } ∧
    runValidationRule (requiredRule "q" "req" ["a", "b.c"] "error") falsyData =
      { name := "req", status := "passed" } ∧
    runValidationRule (requiredRule "q" "req" ["a"] "error")
        [("a", Jv.null)] =
      { name := "req", status := "failed",
        error := some ("Missing fields: " ++ pyReprStrList ["a"]) } := by
  have hfold := reqStep_foldlM data fields []
  have hrun : runValidationRule (requiredRule rid rname fields sev) data =
      (if (fields.filter (fun f => pyIsNone (getNestedValue data f))).isEmpty
       then { name := rname, status := "passed" }
       else { name := rname, status := "failed",
              error := some ("Missing fields: " ++
                pyReprStrList
                  (fields.filter
                    (fun f => pyIsNone (getNestedValue data f)))) }) := by
    by_cases hm : (fields.filter
        (fun f => pyIsNone (getNestedValue data f))).isEmpty
    · rw [if_pos hm]
      unfold runValidationRule evalRule requiredRule evalRequired asIterable
      simp [lookup, hfold, hm, Bind.bind, Except.bind, Pure.pure, Except.pure]
    · rw [if_neg hm]
      have hm0 : (fields.filter
          (fun f => pyIsNone (getNestedValue data f))).isEmpty = false := by
        cases hx : (fields.filter
            (fun f => pyIsNone (getNestedValue data f))).isEmpty
        · rfl
        · exact absurd hx hm
      unfold runValidationRule evalRule requiredRule evalRequired asIterable
      simp [lookup, hfold, hm0, Bind.bind, Except.bind, Pure.pure, Except.pure]
      show "Missing fields: " ++
          pyReprStrList
            (fields.filter (fun f => pyIsNone (getNestedValue data f)))
          ++ "" = _
      simp
  refine ⟨?_, ?_, ?_, rfl, rfl, rfl⟩
  · rw [hrun]
    by_cases hm : (fields.filter
        (fun f => pyIsNone (getNestedValue data f))).isEmpty
    · rw [if_pos hm, if_pos hm]
    · rw [if_neg hm, if_neg hm]
  · intro hne
    have hm : ¬(fields.filter
        (fun f => pyIsNone (getNestedValue data f))).isEmpty = true := by
      rw [List.isEmpty_iff]
      exact hne
    rw [hrun, if_neg hm]
  · intro f hf v hv hnn
    rw [List.mem_filter]
    rintro ⟨-, hnone⟩
    rw [hv] at hnone
    cases v with
    | null => exact hnn rfl
    | bool b => simp [pyIsNone] at hnone
    | num n => simp [pyIsNone] at hnone
    | str s => simp [pyIsNone] at hnone
    | arr xs => simp [pyIsNone] at hnone
    | obj fs => simp [pyIsNone] at hnone

/-- Witness for C8's amended theorem: on the falsy-data example, the filter
of missing fields is `["d"]`, so the rule fails listing `d`; and the
present non-null falsy field `a` (value 0) is not missing. -/
theorem C8_required_fields_witness :
    (runValidationRule (requiredRule "q" "req" ["a", "b.c", "d"] "error")
        falsyData).error =
      some ("Missing fields: " ++ pyReprStrList ["d"]) ∧
    "a" ∉ ["a", "b.c", "d"].filter
      (fun f2 => pyIsNone (getNestedValue falsyData f2)) := by
  have h := C8_required_fields "q" "req" "error" ["a", "b.c", "d"] falsyData
  constructor
  · exact h.2.1 (by decide)
  · exact h.2.2.1 "a" (by decide) (Jv.num 0) rfl
      (fun hc => Jv.noConfusion hc)

/-- Counterexample for C8 as stated: in `{a: null}` the listed path `a` is
resolvable — it resolves to the stored JSON null — yet the code counts it
as missing and fails the check citing `a`, so "fails iff at least one
listed dotted path is unresolvable" is false on the program. -/
theorem C8_required_fields_counterexample :
    getNestedValue [("a", Jv.null)] "a" = some Jv.null ∧
    (getNestedValue [("a", Jv.null)] "a").isSome = true ∧
    runValidationRule (requiredRule "q" "req" ["a"] "error")
        [("a", Jv.null)] =
      { name := "req", status := "failed",
        error := some ("Missing fields: " ++ pyReprStrList ["a"]) } :=
  ⟨rfl, rfl, rfl⟩

theorem valFold_skip (data : Dict) (r : ValidationRule)
    (rs : List ValidationRule)
    (hst : (runValidationRule r data).status ≠ "failed") :
    ∀ init : List String × List String × List CheckResult,
      (((r :: rs).foldl (valStep data) init).1 =
        (rs.foldl (valStep data) init).1 ∧
       ((r :: rs).foldl (valStep data) init).2.1 =
        (rs.foldl (valStep data) init).2.1) := by
  intro init
  obtain ⟨i1, i2, i3⟩ := init
  rw [List.foldl_cons]
  have hskip : valStep data (i1, i2, i3) r =
      (i1, i2, i3 ++ [runValidationRule r data]) := by
    unfold valStep
    rw [if_neg hst]
  rw [hskip, valFold_append data rs i1 i2 (i3 ++ [runValidationRule r data]),
    valFold_append data rs i1 i2 i3]
  exact ⟨rfl, rfl⟩

/-- C10: a rule whose evaluation raises is recorded as a check with status
`"error"` instead of propagating the exception; such a check feeds neither
`errors` nor `warnings` (only `"failed"` checks do), so dropping it changes
no error list, status, or score — and a validation whose only rule raises
(a SumCheck over a string operand) still comes out `PASS` with quality 100. -/
theorem C10_rule_error_isolation :
    (∀ (rule : ValidationRule) (data : Dict) (e : String),
      evalRule rule data = Except.error e →
      runValidationRule rule data =
        { name := rule.name, status := "error", error := some e }) ∧
    (∀ (pyd : Option (Option String)) (r : ValidationRule)
        (rs : List ValidationRule) (data : Dict),
      (runValidationRule r data).status = "error" →
      (validateOutput pyd (r :: rs) data).errors =
        (validateOutput pyd rs data).errors ∧
      (validateOutput pyd (r :: rs) data).warnings =
        (validateOutput pyd rs data).warnings ∧
      (validateOutput pyd (r :: rs) data).status =
        (validateOutput pyd rs data).status ∧
      (validateOutput pyd (r :: rs) data).quality_score =
        (validateOutput pyd rs data).quality_score) ∧
    (runValidationRule sumRuleAB sumDataTypeError).status = "error" ∧
    validateOutput (some none) [sumRuleAB] sumDataTypeError =
      { status := "PASS", quality_score := 100,
        checks := [{ name := "pydantic_validation", status := "passed" },
                   { name := "sum_total", status := "error",
                     error := some "TypeError: unsupported operand type(s) for +" }],
        errors := [], warnings := [] } := by
  refine ⟨?_, ?_, rfl, rfl⟩
  · intro rule data e h
    unfold runValidationRule
    rw [h]
  · intro pyd r rs data hst
    have hne : (runValidationRule r data).status ≠ "failed" := by
      rw [hst]; decide
    have he : (validateOutput pyd (r :: rs) data).errors =
        (validateOutput pyd rs data).errors :=
      (valFold_skip data r rs hne _).1
    have hw : (validateOutput pyd (r :: rs) data).warnings =
        (validateOutput pyd rs data).warnings :=
      (valFold_skip data r rs hne _).2
    have hstatus : ∀ rules : List ValidationRule,
        (validateOutput pyd rules data).status =
          (if !(validateOutput pyd rules data).errors.isEmpty then "FAIL"
           else if !(validateOutput pyd rules data).warnings.isEmpty
           then "REVIEW" else "PASS") := fun _ => rfl
    have hquality : ∀ rules : List ValidationRule,
        (validateOutput pyd rules data).quality_score =
          max 0 (min 100
            ((100 : Int) -
              ((validateOutput pyd rules data).errors.length : Int) * 15 -
              ((validateOutput pyd rules data).warnings.length : Int) * 5)) :=
      fun _ => rfl
    refine ⟨he, hw, ?_, ?_⟩
    · rw [hstatus (r :: rs), hstatus rs, he, hw]
    · rw [hquality (r :: rs), hquality rs, he, hw]

/-- Witness for C10: the SumCheck over a string operand raises and is
recorded as an `"error"` check, and removing it from the rule list leaves
the validation status unchanged. -/
theorem C10_rule_error_isolation_witness :
    runValidationRule sumRuleAB sumDataTypeError =
      { name := "sum_total", status := "error",
        error := some "TypeError: unsupported operand type(s) for +" } ∧
    (validateOutput (some none) [sumRuleAB] sumDataTypeError).status =
      (validateOutput (some none) [] sumDataTypeError).status := by
  exact ⟨C10_rule_error_isolation.1 sumRuleAB sumDataTypeError
      "TypeError: unsupported operand type(s) for +" rfl,
    (C10_rule_error_isolation.2.1 (some none) sumRuleAB [] sumDataTypeError
      rfl).2.2.1⟩

/-- C1 (amended): when validation stored a `FAIL` and the engine-level
retry budget is not exhausted (and no group remains unprocessed), the
router returns only `next_action="retry"`, `should_retry=True` and the
incremented `retry_count`; it does not clear `completed_groups` or the
stored validation result and does not reset `current_group`, so the retry
re-enters `execute_group` with the state otherwise unchanged rather than
re-running the task set from the first group. -/
theorem C1_router_retry_keeps_state (st : RouterState)
    (vr : ValidationResult)
    (hrem : (sortedGroupKeys st.skills).filter
      (fun g => !st.completed_groups.contains g) = [])
    (hvr : st.validation_result = some vr)
    (hfail : vr.status = "FAIL")
    (hbudget : st.retry_count < st.max_retries) :
    routeNextAction st =
      { next_action := some "retry", should_retry := some true,
        retry_count := some (st.retry_count + 1) } ∧
    (applyRouterUpdate st (routeNextAction st)).completed_groups =
      st.completed_groups ∧
    (applyRouterUpdate st (routeNextAction st)).validation_result =
      st.validation_result ∧
    (applyRouterUpdate st (routeNextAction st)).current_group =
      st.current_group ∧
    (applyRouterUpdate st (routeNextAction st)).retry_count =
      st.retry_count + 1 := by
  have hroute : routeNextAction st =
      { next_action := some "retry", should_retry := some true,
        retry_count := some (st.retry_count + 1) } := by
    simp only [routeNextAction]
    rw [hrem, hvr]
    simp [hfail, hbudget]
  refine ⟨hroute, ?_, ?_, ?_, ?_⟩ <;>
    simp [applyRouterUpdate, hroute]

/-- Witness for C1's amended theorem: on the concrete post-validation
`FAIL` state, the router emits the retry update and the applied state keeps
its completed groups, validation and current group. -/
theorem C1_router_retry_keeps_state_witness :
    routeNextAction c1State =
      { next_action := some "retry", should_retry := some true,
        retry_count := some 1 } ∧
    (applyRouterUpdate c1State (routeNextAction c1State)).completed_groups =
      [1, 2] := by
  have h := C1_router_retry_keeps_state c1State vrFail (by decide) rfl rfl
    (by decide)
  exact ⟨h.1, h.2.1⟩

/-- Counterexample for C1 as stated: in the concrete `FAIL`-with-budget
state the routing step does not clear `completedGroups`, does not clear the
stored validation result, and leaves `currentGroup` at the last group (2)
rather than the first group (1), even though it does route to "retry". -/
theorem C1_router_retry_counterexample :
    (routeNextAction c1State).next_action = some "retry" ∧
    ¬((applyRouterUpdate c1State (routeNextAction c1State)).completed_groups
        = [] ∧
      (applyRouterUpdate c1State (routeNextAction c1State)).validation_result
        = none ∧
      (applyRouterUpdate c1State (routeNextAction c1State)).current_group
        = 1) ∧
    (applyRouterUpdate c1State (routeNextAction c1State)).completed_groups =
      [1, 2] ∧
    (applyRouterUpdate c1State (routeNextAction c1State)).validation_result =
      some vrFail ∧
    (applyRouterUpdate c1State (routeNextAction c1State)).current_group = 2 ∧
    sortedGroupKeys c1State.skills = [1, 2] := by
  refine ⟨rfl, ?_, rfl, rfl, rfl, rfl⟩
  rintro ⟨h1, -, -⟩
  have h2 : ([1, 2] : List Nat) = [] := h1
  exact absurd h2 (by decide)

end SkillAgent
